import Mathlib

/-
Verification of the JSON marker-configuration decoder in
src/mjpg-streamer-experimental/plugins/input_opencv/parse_json.c.

The decoder consumes a jsmn token stream over a byte buffer.  We embed the
token stream shallowly: a token carries its jsmn type, the text of its byte
span, and its jsmn `size` (number of direct children).  `parse_json` is
translated statement by statement; its loops become structural recursions
whose iteration counts mirror the C loops exactly.  Machine-int overflow is
not exercised by any claim, so C `int` values are modelled as `Int`.

Modelling notes (each marked at its definition):
  - `malloc` is modelled by an oracle of success bits, and a request whose
    C `int` size expression is negative is modelled as failing (the negative
    int converts to a huge `size_t`).
  - reading a token index beyond the parsed count (C reads uninitialized
    stack memory) yields a fixed `UNDEF` token.
  - writing through a NULL array pointer (a crash in C) is modelled as the
    `SegFault` outcome.
-/

namespace ParseJson

inductive TokType
  | OBJECT | ARRAY | STRING | PRIMITIVE | UNDEF
deriving DecidableEq, Repr

structure Tok where
  type : TokType
  text : String
  size : Nat
deriving DecidableEq, Repr

def undefTok : Tok := ⟨TokType.UNDEF, "", 0⟩

/-- Reading `t[i]`; beyond the token count the C code would read
uninitialized stack memory, modelled as the fixed `UNDEF` token. -/
def tget (ts : List Tok) (i : Nat) : Tok := ts.getD i undefTok

/-- `jsoneq` from parse_json.c lines 93-99: token is a STRING whose span
equals `s`. -/
def jsoneq (tok : Tok) (s : String) : Bool :=
  tok.type == TokType.STRING && tok.text == s

/-- Digit-run accumulator of C `atoi`. -/
def digitsVal : List Char → Int → Int
  | [], acc => acc
  | c :: cs, acc =>
    if c.isDigit then digitsVal cs (acc * 10 + (c.toNat - 48)) else acc

/-- C `atoi` over a token span: skip whitespace, optional sign, then a digit
run; no digits yield 0.  (jsmn primitive/string spans are delimiter-bounded,
so `atoi(buf + tok->start)` reads exactly the span's leading digits.) -/
def atoi (s : String) : Int :=
  match s.toList.dropWhile (fun c => c.isWhitespace) with
  | '-' :: cs => - digitsVal cs 0
  | '+' :: cs => digitsVal cs 0
  | cs => digitsVal cs 0

/-- Outcomes of the decoder, one per distinct failure message in
parse_json.c: `NotObject` = "Object expected" (return 1), `InvalidDimensions`
= "Dimension error!", `AllocationError` = "Memory not allocated.",
`ShapeMismatch` = the three dimension-mismatch messages.  `SegFault` models
writing through a NULL out-array (C crashes). -/
inductive DecodeErr
  | NotObject | InvalidDimensions | AllocationError | ShapeMismatch | SegFault
deriving DecidableEq, Repr

inductive AllocId
  | buf | a_marker_start | a_marker_mid | a_marker_end | a_angles | a_marker_color
deriving DecidableEq, Repr

/-- A heap array produced by `malloc`: entries are `none` until written
(malloc does not initialize). -/
abbrev HArr := List (Option Int)

/-- `malloc` for `k`-th allocation of the call: a negative C `int` size
converts to a huge `size_t` and the request fails; otherwise the oracle's
`k`-th bit decides (default: success). -/
def mallocArr (oracle : List Bool) (k : Nat) (size : Int) : Option HArr :=
  if size < 0 then none
  else if oracle.getD k true then some (List.replicate size.toNat none) else none

/-- `ptr[idx] = v` where `idx` is a C `int` expression; a negative index is
out of bounds (UB in C, unreachable once dimensions are positive), modelled
as a no-op. -/
def setIdx (arr : HArr) (idx : Int) (v : Int) : HArr :=
  if 0 ≤ idx then arr.set idx.toNat (some v) else arr

/-- The five heap arrays while the array pass runs.  `marker_color` may be
NULL: its allocation is the one parse_json.c does not check. -/
structure St where
  angles : HArr
  marker_color : Option HArr
  marker_start : HArr
  marker_mid : HArr
  marker_end : HArr
deriving DecidableEq, Repr

/-- The caller's out-parameters.  Outer `none` = parse_json never wrote the
slot (the caller's original value survives); for array slots the inner
`none` = NULL was stored. -/
structure CallerState where
  marker_color : Option (Option HArr)
  marker_start : Option (Option HArr)
  marker_mid : Option (Option HArr)
  marker_end : Option (Option HArr)
  angles : Option (Option HArr)
  num_ang : Option Int
  num_mark : Option Int
deriving DecidableEq, Repr

def initCS : CallerState := ⟨none, none, none, none, none, none, none⟩

instance : DecidableEq (Except DecodeErr Unit) := fun a b =>
  match a, b with
  | Except.error e, Except.error f =>
    if h : e = f then isTrue (by rw [h]) else isFalse (by simp [h])
  | Except.ok _, Except.ok _ => isTrue rfl
  | Except.error _, Except.ok _ => isFalse (by simp)
  | Except.ok _, Except.error _ => isFalse (by simp)

/-- Result of a parse_json call: outcome, final out-parameters, and the
allocations made during the call that are still live when it returns. -/
structure POut where
  ret : Except DecodeErr Unit
  cs : CallerState
  live : List AllocId
deriving DecidableEq, Repr

/-- Dimension pass, parse_json.c lines 141-154: `for (i = 1; i < r; i++)`
over every token; a STRING token equal to a dimension key makes `atoi` of
the following token the new value and skips one extra token.  There is no
early exit and no nesting awareness.  Structural fuel bounds the iteration
count; the pass is entered with fuel `r`, which the loop (advancing `i` by
at least 1 per iteration) can never exhaust. -/
def dimGo (ts : List Tok) (r : Nat) : Nat → Nat → Int × Int → Int × Int
  | 0, _, d => d
  | fuel + 1, i, d =>
    if i < r then
      if jsoneq (tget ts i) "num_angles" then
        dimGo ts r fuel (i + 2) (atoi (tget ts (i + 1)).text, d.2)
      else if jsoneq (tget ts i) "num_markers" then
        dimGo ts r fuel (i + 2) (d.1, atoi (tget ts (i + 1)).text)
      else
        dimGo ts r fuel (i + 1) d
    else d

def dimPass (ts : List Tok) : Int × Int :=
  dimGo ts ts.length ts.length 1 (0, 0)

/-- The `for (j...) (*angles)[j] = atoi(...)` loop (also used verbatim for
marker_color), lines 204-209 / 229-234: exactly `n` iterations, writing
index `j` from token `indx` onward.  Returns the array and final `indx`. -/
def angGo (ts : List Tok) : Nat → Nat → Nat → HArr → HArr × Nat
  | 0, _, indx, arr => (arr, indx)
  | n + 1, j, indx, arr =>
    angGo ts n (j + 1) (indx + 1) (arr.set j (some (atoi (tget ts indx).text)))

/-- Inner `for (k...) ptr[k * num_angles + j] = atoi(...)` loop,
lines 290-295. -/
def locInnerGo (ts : List Tok) (na : Int) (j : Nat) :
    Nat → Nat → Nat → HArr → HArr × Nat
  | 0, _, indx, arr => (arr, indx)
  | n + 1, k, indx, arr =>
    locInnerGo ts na j n (k + 1) (indx + 1)
      (setIdx arr ((k : Int) * na + (j : Int)) (atoi (tget ts indx).text))

/-- Outer `for (j...)` loop of the location branch, lines 274-297: each
element consumes one token; only elements that are ARRAY tokens are
length-checked and decoded (others are skipped, their descendants not
advanced over).  Returns array, final `indx`, and the error if the inner
length check failed. -/
def locGo (ts : List Tok) (na nm : Int) :
    Nat → Nat → Nat → HArr → HArr × Nat × Option DecodeErr
  | 0, _, indx, arr => (arr, indx, none)
  | n + 1, j, indx, arr =>
    if (tget ts indx).type == TokType.ARRAY then
      if ((tget ts indx).size : Int) = nm * 2 then
        let p := locInnerGo ts na j (tget ts indx).size 0 (indx + 1) arr
        locGo ts na nm n (j + 1) p.2 p.1
      else (arr, indx + 1, some DecodeErr.ShapeMismatch)
    else locGo ts na nm n (j + 1) (indx + 1) arr

/-- One iteration of the array pass (the body of the `for (i...)` loop,
lines 186-304).  Returns `(d, st, err)`: the C loop examines index
`i + 1 + d` next (`i = indx - 1` followed by `i++`), `d = 0` for the
`continue` and unknown-key branches.  On `err = some _` the loop returns
immediately and `d` is never used. -/
def arrBody (ts : List Tok) (na nm : Int) (i : Nat) (st : St) :
    Nat × St × Option DecodeErr :=
  if jsoneq (tget ts i) "angles" then
    if (tget ts (i + 1)).type == TokType.ARRAY then
      if ((tget ts (i + 1)).size : Int) = na then
        let p := angGo ts (tget ts (i + 1)).size 0 (i + 2) st.angles
        (p.2 - (i + 1), { st with angles := p.1 }, none)
      else (1, st, some DecodeErr.ShapeMismatch)
    else (0, st, none)
  else if jsoneq (tget ts i) "marker_color" then
    if (tget ts (i + 1)).type == TokType.ARRAY then
      if ((tget ts (i + 1)).size : Int) = nm then
        match st.marker_color with
        | none => (1, st, some DecodeErr.SegFault)
        | some arr =>
          let p := angGo ts (tget ts (i + 1)).size 0 (i + 2) arr
          (p.2 - (i + 1), { st with marker_color := some p.1 }, none)
      else (1, st, some DecodeErr.ShapeMismatch)
    else (0, st, none)
  else if jsoneq (tget ts i) "marker_start" || jsoneq (tget ts i) "marker_mid"
      || jsoneq (tget ts i) "marker_end" then
    if (tget ts (i + 1)).type == TokType.ARRAY then
      if ((tget ts (i + 1)).size : Int) = na then
        if jsoneq (tget ts i) "marker_start" then
          let p := locGo ts na nm (tget ts (i + 1)).size 0 (i + 2) st.marker_start
          (p.2.1 - (i + 1), { st with marker_start := p.1 }, p.2.2)
        else if jsoneq (tget ts i) "marker_mid" then
          let p := locGo ts na nm (tget ts (i + 1)).size 0 (i + 2) st.marker_mid
          (p.2.1 - (i + 1), { st with marker_mid := p.1 }, p.2.2)
        else
          let p := locGo ts na nm (tget ts (i + 1)).size 0 (i + 2) st.marker_end
          (p.2.1 - (i + 1), { st with marker_end := p.1 }, p.2.2)
      else (1, st, some DecodeErr.ShapeMismatch)
    else (0, st, none)
  else (0, st, none)

/-- The array pass, lines 186-304, with structural fuel.  Entered with fuel
`r`; since each iteration advances `i` by at least 1 and runs only while
`i < r`, fuel `r` can never run out (and exhaustion coincides with the
normal-exit result). -/
def arrGo (ts : List Tok) (r : Nat) (na nm : Int) :
    Nat → Nat → St → St × Option DecodeErr
  | 0, _, st => (st, none)
  | fuel + 1, i, st =>
    if i < r then
      let b := arrBody ts na nm i st
      match b.2.2 with
      | some e => (b.2.1, some e)
      | none => arrGo ts r na nm fuel (i + 1 + b.1) b.2.1
    else (st, none)

def liveArrays (ms mm me aa ac : Option HArr) : List AllocId :=
  (if ms.isSome then [AllocId.a_marker_start] else []) ++
  (if mm.isSome then [AllocId.a_marker_mid] else []) ++
  (if me.isSome then [AllocId.a_marker_end] else []) ++
  (if aa.isSome then [AllocId.a_angles] else []) ++
  (if ac.isSome then [AllocId.a_marker_color] else [])

/-- Store the (possibly partially written) heap arrays into the caller's
slots: the caller's pointers already point at them. -/
def csWith (cs : CallerState) (st : St) : CallerState :=
  { cs with
    marker_start := some (some st.marker_start)
    marker_mid := some (some st.marker_mid)
    marker_end := some (some st.marker_end)
    angles := some (some st.angles)
    marker_color := some st.marker_color }

/-- `parse_json`, lines 102-309, for a run in which `slurp` and `jsmn_parse`
succeeded (`ts` is the token stream; `r = ts.length`).  `oracle` decides
malloc outcomes in allocation order: marker_start, marker_mid, marker_end,
angles, marker_color.  `live` lists the call's allocations still live at
return; the token-stream buffer `buf` is freed only on the success path
(line 307). -/
def parse_json (oracle : List Bool) (ts : List Tok) : POut :=
  let r := ts.length
  if r < 1 ∨ ¬ (tget ts 0).type = TokType.OBJECT then
    ⟨Except.error DecodeErr.NotObject, initCS, [AllocId.buf]⟩
  else
    let d := dimPass ts
    if d.1 = 0 ∨ d.2 = 0 then
      ⟨Except.error DecodeErr.InvalidDimensions, initCS, [AllocId.buf]⟩
    else
      let cs0 : CallerState := { initCS with num_ang := some d.1, num_mark := some d.2 }
      let msz : Int := d.1 * d.2 * 2
      let m_start := mallocArr oracle 0 msz
      let m_mid := mallocArr oracle 1 msz
      let m_end := mallocArr oracle 2 msz
      let m_ang := mallocArr oracle 3 d.1
      let m_col := mallocArr oracle 4 d.2
      let cs1 : CallerState :=
        { cs0 with
          marker_start := some m_start
          marker_mid := some m_mid
          marker_end := some m_end
          angles := some m_ang
          marker_color := some m_col }
      let liveA := AllocId.buf :: liveArrays m_start m_mid m_end m_ang m_col
      match m_start, m_mid, m_end, m_ang with
      | some hs, some hm, some he, some ha =>
        let res := arrGo ts r d.1 d.2 r 1 ⟨ha, m_col, hs, hm, he⟩
        match res.2 with
        | some e => ⟨Except.error e, csWith cs1 res.1, liveA⟩
        | none => ⟨Except.ok (), csWith cs1 res.1,
                   liveArrays m_start m_mid m_end m_ang m_col⟩
      | _, _, _, _ => ⟨Except.error DecodeErr.AllocationError, cs1, liveA⟩

/-
The Byte Loader `slurp`, lines 17-70, for a run in which open/seek/tell,
fread and fclose all succeed.  The C bug under study: line 65 executes
`buf[fsz] = 0` where `buf` is the `char **` parameter, so the NUL lands in
the caller's pointer slot area (`callerSlotStray`), not in the loaded
buffer, whose final byte stays uninitialized (`none`).
-/

structure SlurpOut where
  ret : Int
  allocLen : Nat
  contents : List (Option Nat)
  callerSlotStray : Option Nat
deriving DecidableEq, Repr

def slurp (data : List Nat) (add_nul : Bool) : SlurpOut :=
  let fsz := data.length
  let allocLen := fsz + (if add_nul then 1 else 0)
  let filled : List (Option Nat) :=
    data.map some ++ List.replicate (allocLen - fsz) none
  if add_nul then
    { ret := (fsz : Int), allocLen := allocLen, contents := filled,
      callerSlotStray := some fsz }
  else
    { ret := (fsz : Int), allocLen := allocLen, contents := filled,
      callerSlotStray := none }

/-
JSON documents and their jsmn token streams.  `flatten` produces exactly
the preorder token sequence jsmn emits: container tokens carry their direct
child count as `size`, object keys are STRING tokens of size 1.
-/

inductive JVal
  | prim (s : String)
  | str (s : String)
  | arr (elems : List JVal)
  | obj (members : List (String × JVal))

mutual

def flatten : JVal → List Tok
  | JVal.prim s => [⟨TokType.PRIMITIVE, s, 0⟩]
  | JVal.str s => [⟨TokType.STRING, s, 0⟩]
  | JVal.arr es => ⟨TokType.ARRAY, "", es.length⟩ :: flattenList es
  | JVal.obj ms => ⟨TokType.OBJECT, "", ms.length⟩ :: flattenMembers ms

def flattenList : List JVal → List Tok
  | [] => []
  | v :: vs => flatten v ++ flattenList vs

def flattenMembers : List (String × JVal) → List Tok
  | [] => []
  | m :: ms => ⟨TokType.STRING, m.1, 1⟩ :: (flatten m.2 ++ flattenMembers ms)

end

/-
The clean document class: the documented schema shape, with arbitrary
lengths.  Dimension fields and unknown fields hold primitives; `angles` and
`marker_color` hold arrays of primitives; the three location fields hold
arrays of arrays of primitives.
-/

def isPrimB : JVal → Bool
  | JVal.prim _ => true
  | _ => false

def isPrimArr : JVal → Bool
  | JVal.arr es => es.all isPrimB
  | _ => false

def flatKey (k : String) : Bool := k == "angles" || k == "marker_color"

def locKey (k : String) : Bool :=
  k == "marker_start" || k == "marker_mid" || k == "marker_end"

def knownKey (k : String) : Bool :=
  flatKey k || locKey k || k == "num_angles" || k == "num_markers"

def cleanMember : String × JVal → Bool
  | (k, v) =>
    if flatKey k then isPrimArr v
    else if locKey k then
      match v with
      | JVal.arr es => es.all isPrimArr
      | _ => false
    else isPrimB v

def cleanDoc (ms : List (String × JVal)) : Bool := ms.all cleanMember

/-- True when a token matches none of the five array-field keys that the
array pass dispatches on. -/
def keyMatchesNone (tok : Tok) : Bool :=
  !(jsoneq tok "angles" || jsoneq tok "marker_color" || jsoneq tok "marker_start"
    || jsoneq tok "marker_mid" || jsoneq tok "marker_end")

/-- The text `atoi` sees for a value token produced by `flatten`. -/
def primText : JVal → String
  | JVal.prim s => s
  | JVal.str s => s
  | JVal.arr _ => ""
  | JVal.obj _ => ""

/-
Derived characterizations of the two passes on clean documents, proved
equal to the token-level code below (`dimPass_members`, `arrGo_members`).
-/

/-- Contribution of one member to the dimension pass. -/
def dimStep (k : String) (v : JVal) (d : Int × Int) : Int × Int :=
  if k = "num_angles" then (atoi (primText v), d.2)
  else if k = "num_markers" then (d.1, atoi (primText v))
  else d

/-- What the dimension pass computes on a clean document: every occurrence
of a dimension key overwrites the value, so the last occurrence wins. -/
def lastDims : List (String × JVal) → Int × Int → Int × Int
  | [], d => d
  | (k, v) :: ms, d => lastDims ms (dimStep k v d)

/-- Writes of the flat-array loop on element list `es` starting at index
`j`. -/
def writeFlat : List JVal → Nat → HArr → HArr
  | [], _, arr => arr
  | v :: rest, j, arr => writeFlat rest (j + 1) (arr.set j (some (atoi (primText v))))

/-- Writes of the inner location loop: component `k` of angle `j` lands at
`k * num_angles + j`. -/
def writeInner (na : Int) (j : Nat) : List JVal → Nat → HArr → HArr
  | [], _, arr => arr
  | v :: rest, k, arr =>
    writeInner na j rest (k + 1)
      (setIdx arr ((k : Int) * na + (j : Int)) (atoi (primText v)))

/-- The location branch on a clean element list: each element that is an
array is length-checked against `nm * 2` and decoded; a failing check stops
with `ShapeMismatch`. -/
def locFold (na nm : Int) : List JVal → Nat → HArr → HArr × Option DecodeErr
  | [], _, arr => (arr, none)
  | JVal.arr inner :: rest, j, arr =>
    if (inner.length : Int) = nm * 2 then
      locFold na nm rest (j + 1) (writeInner na j inner 0 arr)
    else (arr, some DecodeErr.ShapeMismatch)
  | _ :: rest, j, arr => locFold na nm rest (j + 1) arr

/-- Effect of one clean member on the array-pass state. -/
def memberStepF (na nm : Int) (k : String) (v : JVal) (st : St) :
    St × Option DecodeErr :=
  if k = "angles" then
    match v with
    | JVal.arr es =>
      if (es.length : Int) = na then
        ({ st with angles := writeFlat es 0 st.angles }, none)
      else (st, some DecodeErr.ShapeMismatch)
    | _ => (st, none)
  else if k = "marker_color" then
    match v with
    | JVal.arr es =>
      if (es.length : Int) = nm then
        match st.marker_color with
        | none => (st, some DecodeErr.SegFault)
        | some arr => ({ st with marker_color := some (writeFlat es 0 arr) }, none)
      else (st, some DecodeErr.ShapeMismatch)
    | _ => (st, none)
  else if k = "marker_start" then
    match v with
    | JVal.arr es =>
      if (es.length : Int) = na then
        let p := locFold na nm es 0 st.marker_start
        ({ st with marker_start := p.1 }, p.2)
      else (st, some DecodeErr.ShapeMismatch)
    | _ => (st, none)
  else if k = "marker_mid" then
    match v with
    | JVal.arr es =>
      if (es.length : Int) = na then
        let p := locFold na nm es 0 st.marker_mid
        ({ st with marker_mid := p.1 }, p.2)
      else (st, some DecodeErr.ShapeMismatch)
    | _ => (st, none)
  else if k = "marker_end" then
    match v with
    | JVal.arr es =>
      if (es.length : Int) = na then
        let p := locFold na nm es 0 st.marker_end
        ({ st with marker_end := p.1 }, p.2)
      else (st, some DecodeErr.ShapeMismatch)
    | _ => (st, none)
  else (st, none)

/-- The array pass on a clean document, member by member. -/
def memberFold (na nm : Int) : List (String × JVal) → St → St × Option DecodeErr
  | [], st => (st, none)
  | (k, v) :: ms, st =>
    let p := memberStepF na nm k v st
    match p.2 with
    | some e => (p.1, some e)
    | none => memberFold na nm ms p.1

/-- A clean member whose array lengths disagree with the dimensions. -/
def violates (na nm : Int) : String × JVal → Bool
  | (k, v) =>
    if k == "angles" then
      match v with
      | JVal.arr es => (es.length : Int) != na
      | _ => false
    else if k == "marker_color" then
      match v with
      | JVal.arr es => (es.length : Int) != nm
      | _ => false
    else if locKey k then
      match v with
      | JVal.arr es =>
        ((es.length : Int) != na) ||
          es.any (fun e =>
            match e with
            | JVal.arr inner => (inner.length : Int) != nm * 2
            | _ => false)
      | _ => false
    else false

/-- The whole decoder at the member level for clean documents; proved equal
to `parse_json` on clean documents (`parse_clean_eq` below). -/
def parseSpec (oracle : List Bool) (ms : List (String × JVal)) : POut :=
  let d := lastDims ms (0, 0)
  if d.1 = 0 ∨ d.2 = 0 then
    ⟨Except.error DecodeErr.InvalidDimensions, initCS, [AllocId.buf]⟩
  else
    let cs0 : CallerState := { initCS with num_ang := some d.1, num_mark := some d.2 }
    let msz : Int := d.1 * d.2 * 2
    let m_start := mallocArr oracle 0 msz
    let m_mid := mallocArr oracle 1 msz
    let m_end := mallocArr oracle 2 msz
    let m_ang := mallocArr oracle 3 d.1
    let m_col := mallocArr oracle 4 d.2
    let cs1 : CallerState :=
      { cs0 with
        marker_start := some m_start
        marker_mid := some m_mid
        marker_end := some m_end
        angles := some m_ang
        marker_color := some m_col }
    let liveA := AllocId.buf :: liveArrays m_start m_mid m_end m_ang m_col
    match m_start, m_mid, m_end, m_ang with
    | some hs, some hm, some he, some ha =>
      let res := memberFold d.1 d.2 ms ⟨ha, m_col, hs, hm, he⟩
      match res.2 with
      | some e => ⟨Except.error e, csWith cs1 res.1, liveA⟩
      | none => ⟨Except.ok (), csWith cs1 res.1,
                 liveArrays m_start m_mid m_end m_ang m_col⟩
    | _, _, _, _ => ⟨Except.error DecodeErr.AllocationError, cs1, liveA⟩

/-
Concrete documents used by the claim theorems.
-/

/-- Scenario A of the spec. -/
def docA : JVal := JVal.obj [
  ("num_angles", JVal.prim "2"),
  ("num_markers", JVal.prim "3"),
  ("angles", JVal.arr [JVal.prim "0", JVal.prim "90"]),
  ("marker_color", JVal.arr [JVal.prim "1", JVal.prim "2", JVal.prim "3"]),
  ("marker_start", JVal.arr [
     JVal.arr [JVal.prim "0", JVal.prim "1", JVal.prim "2",
               JVal.prim "3", JVal.prim "4", JVal.prim "5"],
     JVal.arr [JVal.prim "6", JVal.prim "7", JVal.prim "8",
               JVal.prim "9", JVal.prim "10", JVal.prim "11"]])]

/-- Both dimensions present and negative: the `== 0` check passes. -/
def docNeg : JVal :=
  JVal.obj [("num_angles", JVal.prim "-1"), ("num_markers", JVal.prim "-1")]

/-- `num_angles` occurs twice with different values. -/
def doc7 : JVal := JVal.obj [
  ("num_angles", JVal.prim "2"),
  ("num_markers", JVal.prim "1"),
  ("num_angles", JVal.prim "7")]

/-- `marker_start` whose first element is an object (skipped) and whose
second element is an inner array of the wrong length (3 instead of
`num_markers * 2 = 2`). -/
def doc3 : JVal := JVal.obj [
  ("num_angles", JVal.prim "2"),
  ("num_markers", JVal.prim "1"),
  ("marker_start", JVal.arr [
     JVal.obj [("a", JVal.prim "1")],
     JVal.arr [JVal.prim "1", JVal.prim "2", JVal.prim "3"]])]

/-- `angles` has 3 elements but `num_angles` is 2 (Scenario B shape). -/
def doc4 : JVal := JVal.obj [
  ("num_angles", JVal.prim "2"),
  ("num_markers", JVal.prim "3"),
  ("angles", JVal.arr [JVal.prim "1", JVal.prim "2", JVal.prim "3"])]

/-- A valid document with no optional array fields. -/
def doc5 : JVal :=
  JVal.obj [("num_angles", JVal.prim "1"), ("num_markers", JVal.prim "1")]

/-- A valid document (dimensions 2 and 1, both optional flat fields). -/
def base6 : List (String × JVal) := [
  ("num_angles", JVal.prim "2"),
  ("num_markers", JVal.prim "1"),
  ("angles", JVal.arr [JVal.prim "0", JVal.prim "90"]),
  ("marker_color", JVal.arr [JVal.prim "5"])]

/-- `base6` extended with an unknown key whose value is an object that
contains an "angles" member. -/
def ext6 : List (String × JVal) :=
  base6 ++ [("extra", JVal.obj [("angles", JVal.arr [JVal.prim "9", JVal.prim "9"])])]

/-- A `marker_start` value whose first element is a non-array (an object
with a descendant) and whose second is a well-formed inner array. -/
def v8 : JVal := JVal.arr [
  JVal.obj [("k", JVal.prim "5")],
  JVal.arr [JVal.prim "1", JVal.prim "2"]]

def ts8 : List Tok := flatten (JVal.obj [
  ("num_angles", JVal.prim "2"),
  ("num_markers", JVal.prim "1"),
  ("marker_start", v8),
  ("angles", JVal.arr [JVal.prim "0", JVal.prim "90"])])

/-- The array-pass state right after the allocations for `num_angles = 2`,
`num_markers = 1`. -/
def st8 : St :=
  ⟨List.replicate 2 none, some (List.replicate 1 none),
   List.replicate 4 none, List.replicate 4 none, List.replicate 4 none⟩

/-- A document missing `num_angles`. -/
def docM : JVal := JVal.obj [("num_markers", JVal.prim "3")]

/-- A document with `num_angles` present but zero. -/
def docZ : JVal :=
  JVal.obj [("num_angles", JVal.prim "0"), ("num_markers", JVal.prim "3")]

/-- A clean document whose `angles` length disagrees with `num_angles`. -/
def wms3 : List (String × JVal) := [
  ("num_angles", JVal.prim "2"),
  ("num_markers", JVal.prim "1"),
  ("angles", JVal.arr [JVal.prim "1"])]

/-- The members of doc7 as a list, for the dimension-pass witness. -/
def ms7 : List (String × JVal) := [
  ("num_angles", JVal.prim "2"),
  ("num_markers", JVal.prim "1"),
  ("num_angles", JVal.prim "7")]

/-- A clean, well-shaped marker_start value for one angle and one marker. -/
def w8v : JVal := JVal.arr [JVal.arr [JVal.prim "1", JVal.prim "2"]]

def w8ts : List Tok := flatten (JVal.obj [("marker_start", w8v)])

/-- An array-pass state for `num_angles = 1`, `num_markers = 1`. -/
def w8st : St :=
  ⟨List.replicate 1 none, some (List.replicate 1 none),
   List.replicate 2 none, List.replicate 2 none, List.replicate 2 none⟩

end ParseJson

namespace ParseJson

/-
Basic facts about token access and the loop combinators.
-/

theorem tget_cons_succ (a : Tok) (l : List Tok) (i : Nat) :
    tget (a :: l) (i + 1) = tget l i := rfl

theorem tget_cons_zero (a : Tok) (l : List Tok) : tget (a :: l) 0 = a := rfl

theorem tget_append (pre l : List Tok) (i : Nat) :
    tget (pre ++ l) (pre.length + i) = tget l i := by
  induction pre with
  | nil => simp [tget]
  | cons a pre ih =>
    have h : (a :: pre).length + i = (pre.length + i) + 1 := by
      simp [List.length_cons]; omega
    rw [List.cons_append, h, tget_cons_succ]
    exact ih

theorem tget_at (ts pre rest : List Tok) (tok : Tok) (h : ts = pre ++ tok :: rest) :
    tget ts pre.length = tok := by
  rw [h]
  simpa using tget_append pre (tok :: rest) 0

theorem tget_at1 (ts pre rest : List Tok) (t0 t1 : Tok)
    (h : ts = pre ++ t0 :: t1 :: rest) :
    tget ts (pre.length + 1) = t1 := by
  rw [h]
  simpa using tget_append pre (t0 :: t1 :: rest) 1

theorem jsoneq_nonstring (tok : Tok) (s : String)
    (h : ¬ tok.type = TokType.STRING) : jsoneq tok s = false := by
  have hb : (tok.type == TokType.STRING) = false := by
    simpa using h
  simp [jsoneq, hb]

theorem jsoneq_key (k s : String) :
    jsoneq ⟨TokType.STRING, k, 1⟩ s = (k == s) := by
  simp [jsoneq]

theorem keyMatchesNone_nonstring (tok : Tok)
    (h : ¬ tok.type = TokType.STRING) : keyMatchesNone tok = true := by
  simp [keyMatchesNone, jsoneq_nonstring _ _ h]

theorem keyMatchesNone_key (k : String)
    (h1 : flatKey k = false) (h2 : locKey k = false) :
    keyMatchesNone ⟨TokType.STRING, k, 1⟩ = true := by
  simp [flatKey] at h1
  simp [locKey] at h2
  simp [keyMatchesNone, jsoneq_key, h1.1, h1.2, h2.1.1, h2.1.2, h2.2]

theorem angGo_pos (ts : List Tok) :
    ∀ (n j indx : Nat) (arr : HArr), (angGo ts n j indx arr).2 = indx + n := by
  intro n
  induction n with
  | zero => intro j indx arr; simp [angGo]
  | succ n ih =>
    intro j indx arr
    rw [angGo, ih]
    omega

theorem locInnerGo_pos (ts : List Tok) (na : Int) (j : Nat) :
    ∀ (n k indx : Nat) (arr : HArr),
      (locInnerGo ts na j n k indx arr).2 = indx + n := by
  intro n
  induction n with
  | zero => intro k indx arr; simp [locInnerGo]
  | succ n ih =>
    intro k indx arr
    rw [locInnerGo, ih]
    omega

/-
Fuel irrelevance: both passes are entered with fuel equal to the token
count, which the loops can never exhaust; any two sufficient fuels give the
same result.
-/

theorem dimGo_fuel (ts : List Tok) (r : Nat) :
    ∀ (f1 f2 i : Nat) (d : Int × Int), r ≤ i + f1 → r ≤ i + f2 →
      dimGo ts r f1 i d = dimGo ts r f2 i d := by
  intro f1
  induction f1 with
  | zero =>
    intro f2 i d h1 h2
    have hir : ¬ i < r := by omega
    cases f2 with
    | zero => rfl
    | succ f2 => simp [dimGo, hir]
  | succ f1 ih =>
    intro f2 i d h1 h2
    cases f2 with
    | zero =>
      have hir : ¬ i < r := by omega
      simp [dimGo, hir]
    | succ f2 =>
      by_cases hir : i < r
      · rw [dimGo, dimGo, if_pos hir, if_pos hir]
        by_cases ha : jsoneq (tget ts i) "num_angles" = true
        · rw [if_pos ha, if_pos ha]
          exact ih f2 (i + 2) _ (by omega) (by omega)
        · rw [if_neg ha, if_neg ha]
          by_cases hm : jsoneq (tget ts i) "num_markers" = true
          · rw [if_pos hm, if_pos hm]
            exact ih f2 (i + 2) _ (by omega) (by omega)
          · rw [if_neg hm, if_neg hm]
            exact ih f2 (i + 1) _ (by omega) (by omega)
      · simp [dimGo, hir]

theorem arrGo_stop (ts : List Tok) (r : Nat) (na nm : Int) (f i : Nat) (st : St)
    (hir : ¬ i < r) : arrGo ts r na nm f i st = (st, none) := by
  cases f with
  | zero => rfl
  | succ f => simp [arrGo, hir]

theorem arrGo_succ (ts : List Tok) (r : Nat) (na nm : Int) (f i : Nat) (st : St)
    (hir : i < r) :
    arrGo ts r na nm (f + 1) i st =
      (match (arrBody ts na nm i st).2.2 with
       | some e => ((arrBody ts na nm i st).2.1, some e)
       | none => arrGo ts r na nm f (i + 1 + (arrBody ts na nm i st).1)
                   (arrBody ts na nm i st).2.1) := by
  rw [arrGo, if_pos hir]

theorem arrGo_fuel (ts : List Tok) (r : Nat) (na nm : Int) :
    ∀ (f1 f2 i : Nat) (st : St), r ≤ i + f1 → r ≤ i + f2 →
      arrGo ts r na nm f1 i st = arrGo ts r na nm f2 i st := by
  intro f1
  induction f1 with
  | zero =>
    intro f2 i st h1 h2
    have hir : ¬ i < r := by omega
    rw [arrGo_stop ts r na nm 0 i st hir, arrGo_stop ts r na nm f2 i st hir]
  | succ f1 ih =>
    intro f2 i st h1 h2
    by_cases hir : i < r
    · cases f2 with
      | zero => omega
      | succ f2 =>
        rw [arrGo_succ ts r na nm f1 i st hir, arrGo_succ ts r na nm f2 i st hir]
        cases herr : (arrBody ts na nm i st).2.2 with
        | some e => rfl
        | none =>
          simp only []
          exact ih f2 _ _ (by omega) (by omega)
    · rw [arrGo_stop ts r na nm _ i st hir, arrGo_stop ts r na nm f2 i st hir]

/-
Facts about `flatten` and clean values.
-/

theorem dimGo_stop (ts : List Tok) (r f i : Nat) (d : Int × Int)
    (hir : ¬ i < r) : dimGo ts r f i d = d := by
  cases f with
  | zero => rfl
  | succ f => simp [dimGo, hir]

theorem flattenMembers_append (a b : List (String × JVal)) :
    flattenMembers (a ++ b) = flattenMembers a ++ flattenMembers b := by
  induction a with
  | nil => simp [flattenMembers]
  | cons m a ih => simp [flattenMembers, ih]

theorem flattenList_length_prim (es : List JVal) (h : es.all isPrimB = true) :
    (flattenList es).length = es.length := by
  induction es with
  | nil => simp [flattenList]
  | cons v es ih =>
    simp only [List.all_cons, Bool.and_eq_true] at h
    cases v with
    | prim s => simp [flattenList, flatten, ih h.2]
    | str s => simp [isPrimB] at h
    | arr es2 => simp [isPrimB] at h
    | obj ms2 => simp [isPrimB] at h

theorem no_string_flattenList_prim (es : List JVal) (h : es.all isPrimB = true) :
    ∀ tok ∈ flattenList es, ¬ tok.type = TokType.STRING := by
  induction es with
  | nil => simp [flattenList]
  | cons v es ih =>
    simp only [List.all_cons, Bool.and_eq_true] at h
    cases v with
    | prim s =>
      intro tok htok
      simp [flattenList, flatten] at htok
      rcases htok with h1 | h2
      · rw [h1]; simp
      · exact ih h.2 tok h2
    | str s => simp [isPrimB] at h
    | arr es2 => simp [isPrimB] at h
    | obj ms2 => simp [isPrimB] at h

theorem no_string_flattenList_primarr (es : List JVal)
    (h : es.all isPrimArr = true) :
    ∀ tok ∈ flattenList es, ¬ tok.type = TokType.STRING := by
  induction es with
  | nil => simp [flattenList]
  | cons v es ih =>
    simp only [List.all_cons, Bool.and_eq_true] at h
    cases v with
    | prim s => simp [isPrimArr] at h
    | str s => simp [isPrimArr] at h
    | obj ms2 => simp [isPrimArr] at h
    | arr es2 =>
      intro tok htok
      simp [flattenList, flatten] at htok
      rcases htok with h1 | h2 | h3
      · rw [h1]; simp
      · exact no_string_flattenList_prim es2 (by simpa [isPrimArr] using h.1) tok h2
      · exact ih h.2 tok h3

theorem no_string_flatten_clean (k : String) (v : JVal)
    (hc : cleanMember (k, v) = true) :
    ∀ tok ∈ flatten v, ¬ tok.type = TokType.STRING := by
  cases v with
  | prim s =>
    intro tok htok
    simp [flatten] at htok
    rw [htok]; simp
  | str s =>
    exfalso
    by_cases hf : flatKey k = true
    · simp [cleanMember, hf, isPrimArr] at hc
    · by_cases hl : locKey k = true
      · simp [cleanMember, hf, hl] at hc
      · simp [cleanMember, hf, hl, isPrimB] at hc
  | obj ms2 =>
    exfalso
    by_cases hf : flatKey k = true
    · simp [cleanMember, hf, isPrimArr] at hc
    · by_cases hl : locKey k = true
      · simp [cleanMember, hf, hl] at hc
      · simp [cleanMember, hf, hl, isPrimB] at hc
  | arr es =>
    intro tok htok
    simp [flatten] at htok
    rcases htok with h1 | h2
    · rw [h1]; simp
    · by_cases hf : flatKey k = true
      · exact no_string_flattenList_prim es
          (by simpa [cleanMember, hf, isPrimArr] using hc) tok h2
      · by_cases hl : locKey k = true
        · exact no_string_flattenList_primarr es
            (by simpa [cleanMember, hf, hl] using hc) tok h2
        · exfalso
          simp [cleanMember, hf, hl, isPrimB] at hc

/-
Characterization of the dimension pass on clean documents.
-/

theorem dimGo_run_nostring (r : Nat) :
    ∀ (l : List Tok), (∀ tok ∈ l, ¬ tok.type = TokType.STRING) →
    ∀ (ts pre rest : List Tok) (f : Nat) (d : Int × Int),
      ts = pre ++ (l ++ rest) →
      r ≤ pre.length + f → pre.length + l.length ≤ r →
      dimGo ts r f pre.length d = dimGo ts r f (pre.length + l.length) d := by
  intro l
  induction l with
  | nil =>
    intro hl ts pre rest f d hts h1 h2
    simp only [List.length_nil, Nat.add_zero]
  | cons tok l ih =>
    intro hl ts pre rest f d hts h1 h2
    have hlc : (tok :: l).length = l.length + 1 := by simp
    have hir : pre.length < r := by omega
    obtain ⟨f', rfl⟩ : ∃ f', f = f' + 1 := ⟨f - 1, by omega⟩
    have htok : tget ts pre.length = tok :=
      tget_at ts pre (l ++ rest) tok (by rw [hts]; simp)
    have hns : ¬ tok.type = TokType.STRING := hl tok (by simp)
    have hA : jsoneq (tget ts pre.length) "num_angles" = false := by
      rw [htok]; exact jsoneq_nonstring tok _ hns
    have hM : jsoneq (tget ts pre.length) "num_markers" = false := by
      rw [htok]; exact jsoneq_nonstring tok _ hns
    rw [dimGo, if_pos hir, if_neg (by simp [hA]), if_neg (by simp [hM])]
    have hts' : ts = (pre ++ [tok]) ++ (l ++ rest) := by rw [hts]; simp
    have hstep := ih (fun t ht => hl t (List.mem_cons_of_mem _ ht))
      ts (pre ++ [tok]) rest f' d hts'
      (by simp; omega) (by simp at h2 ⊢; omega)
    have hlen1 : (pre ++ [tok]).length = pre.length + 1 := by simp
    rw [hlen1] at hstep
    rw [hstep]
    have hfin : pre.length + 1 + l.length = pre.length + (tok :: l).length := by
      simp; omega
    rw [hfin]
    exact dimGo_fuel ts r f' (f' + 1) _ d (by omega) (by omega)

theorem dimGo_member (k : String) (v : JVal) (hc : cleanMember (k, v) = true) :
    ∀ (ts pre rest : List Tok) (r f : Nat) (d : Int × Int),
      ts = pre ++ (⟨TokType.STRING, k, 1⟩ :: flatten v) ++ rest →
      r = ts.length →
      r ≤ pre.length + f →
      dimGo ts r f pre.length d
        = dimGo ts r f (pre.length + 1 + (flatten v).length) (dimStep k v d) := by
  intro ts pre rest r f d hts hr hf
  have hlen : ts.length = pre.length + 1 + (flatten v).length + rest.length := by
    rw [hts]; simp; omega
  have hir : pre.length < r := by omega
  obtain ⟨f', rfl⟩ : ∃ f', f = f' + 1 := ⟨f - 1, by omega⟩
  have htok : tget ts pre.length = ⟨TokType.STRING, k, 1⟩ :=
    tget_at ts pre (flatten v ++ rest) ⟨TokType.STRING, k, 1⟩
      (by rw [hts]; simp)
  by_cases hka : k = "num_angles"
  · subst hka
    have hv : isPrimB v = true := by
      simpa [cleanMember, flatKey, locKey] using hc
    cases v with
    | str s => simp [isPrimB] at hv
    | arr es2 => simp [isPrimB] at hv
    | obj ms2 => simp [isPrimB] at hv
    | prim s =>
      have htok1 : tget ts (pre.length + 1) = ⟨TokType.PRIMITIVE, s, 0⟩ :=
        tget_at1 ts pre rest ⟨TokType.STRING, "num_angles", 1⟩
          ⟨TokType.PRIMITIVE, s, 0⟩ (by rw [hts]; simp [flatten])
      have hkey : jsoneq (tget ts pre.length) "num_angles" = true := by
        rw [htok, jsoneq_key]; rfl
      rw [dimGo, if_pos hir, if_pos hkey, htok1]
      have hstep : dimStep "num_angles" (JVal.prim s) d = (atoi s, d.2) := by
        simp [dimStep, primText]
      rw [hstep]
      have hpos : pre.length + 1 + (flatten (JVal.prim s)).length
          = pre.length + 2 := by simp [flatten]
      rw [hpos]
      exact dimGo_fuel ts r f' (f' + 1) _ _ (by omega) (by omega)
  · by_cases hkm : k = "num_markers"
    · subst hkm
      have hv : isPrimB v = true := by
        simpa [cleanMember, flatKey, locKey] using hc
      cases v with
      | str s => simp [isPrimB] at hv
      | arr es2 => simp [isPrimB] at hv
      | obj ms2 => simp [isPrimB] at hv
      | prim s =>
        have htok1 : tget ts (pre.length + 1) = ⟨TokType.PRIMITIVE, s, 0⟩ :=
          tget_at1 ts pre rest ⟨TokType.STRING, "num_markers", 1⟩
            ⟨TokType.PRIMITIVE, s, 0⟩ (by rw [hts]; simp [flatten])
        have hkey : jsoneq (tget ts pre.length) "num_angles" = false := by
          rw [htok, jsoneq_key]; rfl
        have hkey2 : jsoneq (tget ts pre.length) "num_markers" = true := by
          rw [htok, jsoneq_key]; rfl
        rw [dimGo, if_pos hir, if_neg (by simp [hkey]), if_pos hkey2, htok1]
        have hstep : dimStep "num_markers" (JVal.prim s) d = (d.1, atoi s) := by
          simp [dimStep, primText]
        rw [hstep]
        have hpos : pre.length + 1 + (flatten (JVal.prim s)).length
            = pre.length + 2 := by simp [flatten]
        rw [hpos]
        exact dimGo_fuel ts r f' (f' + 1) _ _ (by omega) (by omega)
    · have hA : jsoneq (tget ts pre.length) "num_angles" = false := by
        rw [htok, jsoneq_key]; exact beq_eq_false_iff_ne.mpr hka
      have hM : jsoneq (tget ts pre.length) "num_markers" = false := by
        rw [htok, jsoneq_key]; exact beq_eq_false_iff_ne.mpr hkm
      rw [dimGo, if_pos hir, if_neg (by simp [hA]), if_neg (by simp [hM])]
      have hnostr := no_string_flatten_clean k v hc
      have hts' : ts = (pre ++ [⟨TokType.STRING, k, 1⟩]) ++ (flatten v ++ rest) := by
        rw [hts]; simp
      have hrun := dimGo_run_nostring r (flatten v) hnostr ts
        (pre ++ [⟨TokType.STRING, k, 1⟩]) rest f' d hts'
        (by simp; omega) (by simp; omega)
      have hlen1 : (pre ++ [(⟨TokType.STRING, k, 1⟩ : Tok)]).length
          = pre.length + 1 := by simp
      rw [hlen1] at hrun
      rw [hrun]
      have hstep : dimStep k v d = d := by simp [dimStep, hka, hkm]
      rw [hstep]
      exact dimGo_fuel ts r f' (f' + 1) _ d (by omega) (by omega)

theorem dimGo_members :
    ∀ (ms : List (String × JVal)) (ts pre : List Tok) (r f : Nat) (d : Int × Int),
      ts = pre ++ flattenMembers ms →
      r = ts.length →
      r ≤ pre.length + f →
      cleanDoc ms = true →
      dimGo ts r f pre.length d = lastDims ms d := by
  intro ms
  induction ms with
  | nil =>
    intro ts pre r f d hts hr hf hc
    have hr' : r = pre.length := by rw [hr, hts]; simp [flattenMembers]
    rw [dimGo_stop ts r f pre.length d (by omega)]
    rfl
  | cons m ms ih =>
    intro ts pre r f d hts hr hf hc
    obtain ⟨k, v⟩ := m
    have hc' : cleanMember (k, v) = true ∧ cleanDoc ms = true := by
      simpa [cleanDoc] using hc
    rw [dimGo_member k v hc'.1 ts pre (flattenMembers ms) r f d
      (by rw [hts]; simp [flattenMembers]) hr hf]
    have hstep := ih ts (pre ++ (⟨TokType.STRING, k, 1⟩ :: flatten v)) r f
      (dimStep k v d) (by rw [hts]; simp [flattenMembers]) hr
      (by simp; omega) hc'.2
    have hlen1 : (pre ++ ((⟨TokType.STRING, k, 1⟩ : Tok) :: flatten v)).length
        = pre.length + 1 + (flatten v).length := by simp; omega
    rw [hlen1] at hstep
    rw [hstep]
    rfl

theorem dimPass_clean (ms : List (String × JVal)) (hc : cleanDoc ms = true) :
    dimPass (flatten (JVal.obj ms)) = lastDims ms (0, 0) := by
  unfold dimPass
  have hts : flatten (JVal.obj ms)
      = [⟨TokType.OBJECT, "", ms.length⟩] ++ flattenMembers ms := by
    simp [flatten]
  have h := dimGo_members ms (flatten (JVal.obj ms))
    [⟨TokType.OBJECT, "", ms.length⟩] (flatten (JVal.obj ms)).length
    (flatten (JVal.obj ms)).length (0, 0) hts rfl (by simp) hc
  simpa using h

/-
Characterization of the array-pass loops on clean token segments.
-/

theorem angGo_prim :
    ∀ (es : List JVal), es.all isPrimB = true →
    ∀ (ts pre rest : List Tok) (j : Nat) (arr : HArr),
      ts = pre ++ (flattenList es ++ rest) →
      angGo ts es.length j pre.length arr
        = (writeFlat es j arr, pre.length + es.length) := by
  intro es
  induction es with
  | nil =>
    intro h ts pre rest j arr hts
    simp [angGo, writeFlat]
  | cons v es ih =>
    intro h ts pre rest j arr hts
    simp only [List.all_cons, Bool.and_eq_true] at h
    cases v with
    | str s => simp [isPrimB] at h
    | arr es2 => simp [isPrimB] at h
    | obj ms2 => simp [isPrimB] at h
    | prim s =>
      have htok : tget ts pre.length = ⟨TokType.PRIMITIVE, s, 0⟩ :=
        tget_at ts pre (flattenList es ++ rest) ⟨TokType.PRIMITIVE, s, 0⟩
          (by rw [hts]; simp [flattenList, flatten])
      simp only [List.length_cons]
      rw [angGo]
      simp only [htok]
      have hts' : ts = (pre ++ [⟨TokType.PRIMITIVE, s, 0⟩])
          ++ (flattenList es ++ rest) := by
        rw [hts]; simp [flattenList, flatten]
      have hstep := ih h.2 ts (pre ++ [⟨TokType.PRIMITIVE, s, 0⟩]) rest (j + 1)
        (arr.set j (some (atoi s))) hts'
      have hlen1 : (pre ++ [(⟨TokType.PRIMITIVE, s, 0⟩ : Tok)]).length
          = pre.length + 1 := by simp
      rw [hlen1] at hstep
      rw [hstep]
      have harith : pre.length + 1 + es.length = pre.length + (es.length + 1) := by
        omega
      rw [harith]
      simp [writeFlat, primText]

theorem locInnerGo_prim (na : Int) (j : Nat) :
    ∀ (es : List JVal), es.all isPrimB = true →
    ∀ (ts pre rest : List Tok) (k : Nat) (arr : HArr),
      ts = pre ++ (flattenList es ++ rest) →
      locInnerGo ts na j es.length k pre.length arr
        = (writeInner na j es k arr, pre.length + es.length) := by
  intro es
  induction es with
  | nil =>
    intro h ts pre rest k arr hts
    simp [locInnerGo, writeInner]
  | cons v es ih =>
    intro h ts pre rest k arr hts
    simp only [List.all_cons, Bool.and_eq_true] at h
    cases v with
    | str s => simp [isPrimB] at h
    | arr es2 => simp [isPrimB] at h
    | obj ms2 => simp [isPrimB] at h
    | prim s =>
      have htok : tget ts pre.length = ⟨TokType.PRIMITIVE, s, 0⟩ :=
        tget_at ts pre (flattenList es ++ rest) ⟨TokType.PRIMITIVE, s, 0⟩
          (by rw [hts]; simp [flattenList, flatten])
      simp only [List.length_cons]
      rw [locInnerGo]
      simp only [htok]
      have hts' : ts = (pre ++ [⟨TokType.PRIMITIVE, s, 0⟩])
          ++ (flattenList es ++ rest) := by
        rw [hts]; simp [flattenList, flatten]
      have hstep := ih h.2 ts (pre ++ [⟨TokType.PRIMITIVE, s, 0⟩]) rest (k + 1)
        (setIdx arr ((k : Int) * na + (j : Int)) (atoi s)) hts'
      have hlen1 : (pre ++ [(⟨TokType.PRIMITIVE, s, 0⟩ : Tok)]).length
          = pre.length + 1 := by simp
      rw [hlen1] at hstep
      rw [hstep]
      have harith : pre.length + 1 + es.length = pre.length + (es.length + 1) := by
        omega
      rw [harith]
      simp [writeInner, primText]

theorem locGo_clean (na nm : Int) :
    ∀ (es : List JVal), es.all isPrimArr = true →
    ∀ (ts pre rest : List Tok) (j : Nat) (arr : HArr),
      ts = pre ++ (flattenList es ++ rest) →
      ∃ pos, locGo ts na nm es.length j pre.length arr
          = ((locFold na nm es j arr).1, pos, (locFold na nm es j arr).2)
        ∧ ((locFold na nm es j arr).2 = none →
            pos = pre.length + (flattenList es).length) := by
  intro es
  induction es with
  | nil =>
    intro h ts pre rest j arr hts
    exact ⟨pre.length, by simp [locGo, locFold, flattenList]⟩
  | cons v es ih =>
    intro h ts pre rest j arr hts
    simp only [List.all_cons, Bool.and_eq_true] at h
    cases v with
    | prim s => simp [isPrimArr] at h
    | str s => simp [isPrimArr] at h
    | obj ms2 => simp [isPrimArr] at h
    | arr inner =>
      have hprim : inner.all isPrimB = true := by simpa [isPrimArr] using h.1
      have htok : tget ts pre.length = ⟨TokType.ARRAY, "", inner.length⟩ :=
        tget_at ts pre (flattenList inner ++ (flattenList es ++ rest))
          ⟨TokType.ARRAY, "", inner.length⟩
          (by rw [hts]; simp [flattenList, flatten])
      simp only [List.length_cons]
      rw [locGo]
      simp only [htok]
      by_cases hsz : (inner.length : Int) = nm * 2
      · rw [if_pos (by simp), if_pos hsz]
        have hinner := locInnerGo_prim na j inner hprim ts
          (pre ++ [⟨TokType.ARRAY, "", inner.length⟩]) (flattenList es ++ rest)
          0 arr (by rw [hts]; simp [flattenList, flatten])
        have hlen1 : (pre ++ [(⟨TokType.ARRAY, "", inner.length⟩ : Tok)]).length
            = pre.length + 1 := by simp
        rw [hlen1] at hinner
        simp only [hinner]
        have hts' : ts = (pre ++ (⟨TokType.ARRAY, "", inner.length⟩
            :: flattenList inner)) ++ (flattenList es ++ rest) := by
          rw [hts]; simp [flattenList, flatten]
        obtain ⟨pos, hpos, hposn⟩ := ih h.2 ts
          (pre ++ (⟨TokType.ARRAY, "", inner.length⟩ :: flattenList inner)) rest
          (j + 1) (writeInner na j inner 0 arr) hts'
        have hlen2 : (pre ++ ((⟨TokType.ARRAY, "", inner.length⟩ : Tok)
            :: flattenList inner)).length
            = pre.length + 1 + (flattenList inner).length := by simp; omega
        rw [hlen2] at hpos hposn
        have hlp : (flattenList inner).length = inner.length :=
          flattenList_length_prim inner hprim
        rw [hlp] at hpos hposn
        refine ⟨pos, ?_, ?_⟩
        · rw [hpos]
          have hfold : locFold na nm (JVal.arr inner :: es) j arr
              = locFold na nm es (j + 1) (writeInner na j inner 0 arr) := by
            simp [locFold, hsz]
          rw [hfold]
        · intro hnone
          have hfold : locFold na nm (JVal.arr inner :: es) j arr
              = locFold na nm es (j + 1) (writeInner na j inner 0 arr) := by
            simp [locFold, hsz]
          rw [hfold] at hnone
          have := hposn hnone
          rw [this]
          simp [flattenList, flatten, hlp]
          omega
      · rw [if_pos (by simp), if_neg hsz]
        refine ⟨pre.length + 1, ?_, ?_⟩
        · have hfold : locFold na nm (JVal.arr inner :: es) j arr
              = (arr, some DecodeErr.ShapeMismatch) := by
            simp [locFold, hsz]
          rw [hfold]
        · intro hnone
          have hfold : locFold na nm (JVal.arr inner :: es) j arr
              = (arr, some DecodeErr.ShapeMismatch) := by
            simp [locFold, hsz]
          rw [hfold] at hnone
          simp at hnone

/-
One iteration of the array pass on each kind of clean member.
-/

theorem arrBody_nomatch (ts : List Tok) (na nm : Int) (i : Nat) (st : St)
    (h : keyMatchesNone (tget ts i) = true) :
    arrBody ts na nm i st = (0, st, none) := by
  simp only [keyMatchesNone, Bool.not_eq_true', Bool.or_eq_false_iff] at h
  obtain ⟨⟨⟨⟨h1, h2⟩, h3⟩, h4⟩, h5⟩ := h
  simp [arrBody, h1, h2, h3, h4, h5]

theorem arrBody_angles (na nm : Int) (es : List JVal) (hprim : es.all isPrimB = true)
    (ts pre rest : List Tok) (st : St)
    (hts : ts = pre ++ (⟨TokType.STRING, "angles", 1⟩ ::
        ⟨TokType.ARRAY, "", es.length⟩ :: flattenList es) ++ rest) :
    arrBody ts na nm pre.length st =
      if (es.length : Int) = na
      then (es.length + 1, { st with angles := writeFlat es 0 st.angles }, none)
      else (1, st, some DecodeErr.ShapeMismatch) := by
  have htok : tget ts pre.length = ⟨TokType.STRING, "angles", 1⟩ :=
    tget_at ts pre (⟨TokType.ARRAY, "", es.length⟩ :: (flattenList es ++ rest))
      ⟨TokType.STRING, "angles", 1⟩ (by rw [hts]; simp)
  have htok1 : tget ts (pre.length + 1) = ⟨TokType.ARRAY, "", es.length⟩ :=
    tget_at1 ts pre (flattenList es ++ rest) ⟨TokType.STRING, "angles", 1⟩
      ⟨TokType.ARRAY, "", es.length⟩ (by rw [hts]; simp)
  have hang := angGo_prim es hprim ts
    (pre ++ [⟨TokType.STRING, "angles", 1⟩, ⟨TokType.ARRAY, "", es.length⟩])
    rest 0 st.angles (by rw [hts]; simp)
  have hlen2 : (pre ++ [(⟨TokType.STRING, "angles", 1⟩ : Tok),
      ⟨TokType.ARRAY, "", es.length⟩]).length = pre.length + 2 := by simp
  rw [hlen2] at hang
  simp only [arrBody, htok, htok1]
  rw [if_pos (show jsoneq (⟨TokType.STRING, "angles", 1⟩ : Tok) "angles" = true
    from rfl)]
  rw [if_pos (show ((⟨TokType.ARRAY, "", es.length⟩ : Tok).type
      == TokType.ARRAY) = true from rfl)]
  by_cases hsz : ((es.length : Nat) : Int) = na
  · rw [if_pos (by simpa using hsz), if_pos hsz]
    simp only [hang]
    have harith : pre.length + 2 + es.length - (pre.length + 1)
        = es.length + 1 := by omega
    simp [harith]
  · rw [if_neg (by simpa using hsz), if_neg hsz]

theorem arrBody_color (na nm : Int) (es : List JVal) (hprim : es.all isPrimB = true)
    (ts pre rest : List Tok) (st : St)
    (hts : ts = pre ++ (⟨TokType.STRING, "marker_color", 1⟩ ::
        ⟨TokType.ARRAY, "", es.length⟩ :: flattenList es) ++ rest) :
    arrBody ts na nm pre.length st =
      if (es.length : Int) = nm then
        (match st.marker_color with
         | none => (1, st, some DecodeErr.SegFault)
         | some arr => (es.length + 1,
             { st with marker_color := some (writeFlat es 0 arr) }, none))
      else (1, st, some DecodeErr.ShapeMismatch) := by
  have htok : tget ts pre.length = ⟨TokType.STRING, "marker_color", 1⟩ :=
    tget_at ts pre (⟨TokType.ARRAY, "", es.length⟩ :: (flattenList es ++ rest))
      ⟨TokType.STRING, "marker_color", 1⟩ (by rw [hts]; simp)
  have htok1 : tget ts (pre.length + 1) = ⟨TokType.ARRAY, "", es.length⟩ :=
    tget_at1 ts pre (flattenList es ++ rest) ⟨TokType.STRING, "marker_color", 1⟩
      ⟨TokType.ARRAY, "", es.length⟩ (by rw [hts]; simp)
  have hlen2 : (pre ++ [(⟨TokType.STRING, "marker_color", 1⟩ : Tok),
      ⟨TokType.ARRAY, "", es.length⟩]).length = pre.length + 2 := by simp
  simp only [arrBody, htok, htok1]
  rw [if_neg (show ¬ jsoneq (⟨TokType.STRING, "marker_color", 1⟩ : Tok)
    "angles" = true from by decide)]
  rw [if_pos (show jsoneq (⟨TokType.STRING, "marker_color", 1⟩ : Tok)
    "marker_color" = true from rfl)]
  rw [if_pos (show ((⟨TokType.ARRAY, "", es.length⟩ : Tok).type
      == TokType.ARRAY) = true from rfl)]
  by_cases hsz : ((es.length : Nat) : Int) = nm
  · rw [if_pos (by simpa using hsz), if_pos hsz]
    cases hmc : st.marker_color with
    | none => simp
    | some arr =>
      have hang := angGo_prim es hprim ts
        (pre ++ [⟨TokType.STRING, "marker_color", 1⟩,
          ⟨TokType.ARRAY, "", es.length⟩]) rest 0 arr (by rw [hts]; simp)
      rw [hlen2] at hang
      simp only [hang]
      have harith : pre.length + 2 + es.length - (pre.length + 1)
          = es.length + 1 := by omega
      simp [harith]
  · rw [if_neg (by simpa using hsz), if_neg hsz]

theorem arrBody_start_sz (na nm : Int) (es : List JVal)
    (hpa : es.all isPrimArr = true) (ts pre rest : List Tok) (st : St)
    (hts : ts = pre ++ (⟨TokType.STRING, "marker_start", 1⟩ ::
        ⟨TokType.ARRAY, "", es.length⟩ :: flattenList es) ++ rest)
    (hsz : (es.length : Int) = na) :
    ∃ dd, arrBody ts na nm pre.length st
        = (dd, { st with marker_start := (locFold na nm es 0 st.marker_start).1 },
           (locFold na nm es 0 st.marker_start).2)
      ∧ ((locFold na nm es 0 st.marker_start).2 = none →
          dd = 1 + (flattenList es).length) := by
  have htok : tget ts pre.length = ⟨TokType.STRING, "marker_start", 1⟩ :=
    tget_at ts pre (⟨TokType.ARRAY, "", es.length⟩ :: (flattenList es ++ rest))
      ⟨TokType.STRING, "marker_start", 1⟩ (by rw [hts]; simp)
  have htok1 : tget ts (pre.length + 1) = ⟨TokType.ARRAY, "", es.length⟩ :=
    tget_at1 ts pre (flattenList es ++ rest) ⟨TokType.STRING, "marker_start", 1⟩
      ⟨TokType.ARRAY, "", es.length⟩ (by rw [hts]; simp)
  obtain ⟨pos, hpos, hposn⟩ := locGo_clean na nm es hpa ts
    (pre ++ [⟨TokType.STRING, "marker_start", 1⟩, ⟨TokType.ARRAY, "", es.length⟩])
    rest 0 st.marker_start (by rw [hts]; simp)
  have hlen2 : (pre ++ [(⟨TokType.STRING, "marker_start", 1⟩ : Tok),
      ⟨TokType.ARRAY, "", es.length⟩]).length = pre.length + 2 := by simp
  rw [hlen2] at hpos hposn
  refine ⟨pos - (pre.length + 1), ?_, ?_⟩
  · simp only [arrBody, htok, htok1]
    rw [if_neg (show ¬ jsoneq (⟨TokType.STRING, "marker_start", 1⟩ : Tok)
      "angles" = true from by decide)]
    rw [if_neg (show ¬ jsoneq (⟨TokType.STRING, "marker_start", 1⟩ : Tok)
      "marker_color" = true from by decide)]
    rw [if_pos (show (jsoneq (⟨TokType.STRING, "marker_start", 1⟩ : Tok)
        "marker_start" || jsoneq (⟨TokType.STRING, "marker_start", 1⟩ : Tok)
        "marker_mid" || jsoneq (⟨TokType.STRING, "marker_start", 1⟩ : Tok)
        "marker_end") = true from rfl)]
    rw [if_pos (show ((⟨TokType.ARRAY, "", es.length⟩ : Tok).type
        == TokType.ARRAY) = true from rfl)]
    rw [if_pos (by simpa using hsz)]
    rw [if_pos (show jsoneq (⟨TokType.STRING, "marker_start", 1⟩ : Tok)
      "marker_start" = true from rfl)]
    simp only [hpos]
  · intro hnone
    rw [hposn hnone]
    omega

theorem arrBody_mid_sz (na nm : Int) (es : List JVal)
    (hpa : es.all isPrimArr = true) (ts pre rest : List Tok) (st : St)
    (hts : ts = pre ++ (⟨TokType.STRING, "marker_mid", 1⟩ ::
        ⟨TokType.ARRAY, "", es.length⟩ :: flattenList es) ++ rest)
    (hsz : (es.length : Int) = na) :
    ∃ dd, arrBody ts na nm pre.length st
        = (dd, { st with marker_mid := (locFold na nm es 0 st.marker_mid).1 },
           (locFold na nm es 0 st.marker_mid).2)
      ∧ ((locFold na nm es 0 st.marker_mid).2 = none →
          dd = 1 + (flattenList es).length) := by
  have htok : tget ts pre.length = ⟨TokType.STRING, "marker_mid", 1⟩ :=
    tget_at ts pre (⟨TokType.ARRAY, "", es.length⟩ :: (flattenList es ++ rest))
      ⟨TokType.STRING, "marker_mid", 1⟩ (by rw [hts]; simp)
  have htok1 : tget ts (pre.length + 1) = ⟨TokType.ARRAY, "", es.length⟩ :=
    tget_at1 ts pre (flattenList es ++ rest) ⟨TokType.STRING, "marker_mid", 1⟩
      ⟨TokType.ARRAY, "", es.length⟩ (by rw [hts]; simp)
  obtain ⟨pos, hpos, hposn⟩ := locGo_clean na nm es hpa ts
    (pre ++ [⟨TokType.STRING, "marker_mid", 1⟩, ⟨TokType.ARRAY, "", es.length⟩])
    rest 0 st.marker_mid (by rw [hts]; simp)
  have hlen2 : (pre ++ [(⟨TokType.STRING, "marker_mid", 1⟩ : Tok),
      ⟨TokType.ARRAY, "", es.length⟩]).length = pre.length + 2 := by simp
  rw [hlen2] at hpos hposn
  refine ⟨pos - (pre.length + 1), ?_, ?_⟩
  · simp only [arrBody, htok, htok1]
    rw [if_neg (show ¬ jsoneq (⟨TokType.STRING, "marker_mid", 1⟩ : Tok)
      "angles" = true from by decide)]
    rw [if_neg (show ¬ jsoneq (⟨TokType.STRING, "marker_mid", 1⟩ : Tok)
      "marker_color" = true from by decide)]
    rw [if_pos (show (jsoneq (⟨TokType.STRING, "marker_mid", 1⟩ : Tok)
        "marker_start" || jsoneq (⟨TokType.STRING, "marker_mid", 1⟩ : Tok)
        "marker_mid" || jsoneq (⟨TokType.STRING, "marker_mid", 1⟩ : Tok)
        "marker_end") = true from rfl)]
    rw [if_pos (show ((⟨TokType.ARRAY, "", es.length⟩ : Tok).type
        == TokType.ARRAY) = true from rfl)]
    rw [if_pos (by simpa using hsz)]
    rw [if_neg (show ¬ jsoneq (⟨TokType.STRING, "marker_mid", 1⟩ : Tok)
      "marker_start" = true from by decide)]
    rw [if_pos (show jsoneq (⟨TokType.STRING, "marker_mid", 1⟩ : Tok)
      "marker_mid" = true from rfl)]
    simp only [hpos]
  · intro hnone
    rw [hposn hnone]
    omega

theorem arrBody_end_sz (na nm : Int) (es : List JVal)
    (hpa : es.all isPrimArr = true) (ts pre rest : List Tok) (st : St)
    (hts : ts = pre ++ (⟨TokType.STRING, "marker_end", 1⟩ ::
        ⟨TokType.ARRAY, "", es.length⟩ :: flattenList es) ++ rest)
    (hsz : (es.length : Int) = na) :
    ∃ dd, arrBody ts na nm pre.length st
        = (dd, { st with marker_end := (locFold na nm es 0 st.marker_end).1 },
           (locFold na nm es 0 st.marker_end).2)
      ∧ ((locFold na nm es 0 st.marker_end).2 = none →
          dd = 1 + (flattenList es).length) := by
  have htok : tget ts pre.length = ⟨TokType.STRING, "marker_end", 1⟩ :=
    tget_at ts pre (⟨TokType.ARRAY, "", es.length⟩ :: (flattenList es ++ rest))
      ⟨TokType.STRING, "marker_end", 1⟩ (by rw [hts]; simp)
  have htok1 : tget ts (pre.length + 1) = ⟨TokType.ARRAY, "", es.length⟩ :=
    tget_at1 ts pre (flattenList es ++ rest) ⟨TokType.STRING, "marker_end", 1⟩
      ⟨TokType.ARRAY, "", es.length⟩ (by rw [hts]; simp)
  obtain ⟨pos, hpos, hposn⟩ := locGo_clean na nm es hpa ts
    (pre ++ [⟨TokType.STRING, "marker_end", 1⟩, ⟨TokType.ARRAY, "", es.length⟩])
    rest 0 st.marker_end (by rw [hts]; simp)
  have hlen2 : (pre ++ [(⟨TokType.STRING, "marker_end", 1⟩ : Tok),
      ⟨TokType.ARRAY, "", es.length⟩]).length = pre.length + 2 := by simp
  rw [hlen2] at hpos hposn
  refine ⟨pos - (pre.length + 1), ?_, ?_⟩
  · simp only [arrBody, htok, htok1]
    rw [if_neg (show ¬ jsoneq (⟨TokType.STRING, "marker_end", 1⟩ : Tok)
      "angles" = true from by decide)]
    rw [if_neg (show ¬ jsoneq (⟨TokType.STRING, "marker_end", 1⟩ : Tok)
      "marker_color" = true from by decide)]
    rw [if_pos (show (jsoneq (⟨TokType.STRING, "marker_end", 1⟩ : Tok)
        "marker_start" || jsoneq (⟨TokType.STRING, "marker_end", 1⟩ : Tok)
        "marker_mid" || jsoneq (⟨TokType.STRING, "marker_end", 1⟩ : Tok)
        "marker_end") = true from rfl)]
    rw [if_pos (show ((⟨TokType.ARRAY, "", es.length⟩ : Tok).type
        == TokType.ARRAY) = true from rfl)]
    rw [if_pos (by simpa using hsz)]
    rw [if_neg (show ¬ jsoneq (⟨TokType.STRING, "marker_end", 1⟩ : Tok)
      "marker_start" = true from by decide)]
    rw [if_neg (show ¬ jsoneq (⟨TokType.STRING, "marker_end", 1⟩ : Tok)
      "marker_mid" = true from by decide)]
    simp only [hpos]
  · intro hnone
    rw [hposn hnone]
    omega

theorem arrBody_loc_nsz (na nm : Int) (k : String) (es : List JVal)
    (ts pre rest : List Tok) (st : St)
    (hk : locKey k = true)
    (hts : ts = pre ++ (⟨TokType.STRING, k, 1⟩ ::
        ⟨TokType.ARRAY, "", es.length⟩ :: flattenList es) ++ rest)
    (hsz : ¬ (es.length : Int) = na) :
    arrBody ts na nm pre.length st = (1, st, some DecodeErr.ShapeMismatch) := by
  have htok : tget ts pre.length = ⟨TokType.STRING, k, 1⟩ :=
    tget_at ts pre (⟨TokType.ARRAY, "", es.length⟩ :: (flattenList es ++ rest))
      ⟨TokType.STRING, k, 1⟩ (by rw [hts]; simp)
  have htok1 : tget ts (pre.length + 1) = ⟨TokType.ARRAY, "", es.length⟩ :=
    tget_at1 ts pre (flattenList es ++ rest) ⟨TokType.STRING, k, 1⟩
      ⟨TokType.ARRAY, "", es.length⟩ (by rw [hts]; simp)
  have hk3 : k = "marker_start" ∨ k = "marker_mid" ∨ k = "marker_end" := by
    simp [locKey] at hk
    tauto
  rcases hk3 with rfl | rfl | rfl <;>
  · simp only [arrBody, htok, htok1]
    rw [if_neg (by decide), if_neg (by decide), if_pos (by rfl),
        if_pos (by rfl), if_neg (by simpa using hsz)]

theorem arrGo_succ_err (ts : List Tok) (r : Nat) (na nm : Int) (f i : Nat)
    (st st' : St) (d : Nat) (e : DecodeErr) (hir : i < r)
    (h : arrBody ts na nm i st = (d, st', some e)) :
    arrGo ts r na nm (f + 1) i st = (st', some e) := by
  rw [arrGo, if_pos hir, h]

theorem arrGo_succ_ok (ts : List Tok) (r : Nat) (na nm : Int) (f i : Nat)
    (st st' : St) (d : Nat) (hir : i < r)
    (h : arrBody ts na nm i st = (d, st', none)) :
    arrGo ts r na nm (f + 1) i st = arrGo ts r na nm f (i + 1 + d) st' := by
  rw [arrGo, if_pos hir, h]

/-- Effect of the array pass on one clean member: it either stops with the
member's error or continues right after the member's tokens with the
member's state update. -/
theorem arrGo_member (na nm : Int) (k : String) (v : JVal)
    (hc : cleanMember (k, v) = true) :
    ∀ (ts pre rest : List Tok) (r f : Nat) (st : St),
      ts = pre ++ (⟨TokType.STRING, k, 1⟩ :: flatten v) ++ rest →
      r = ts.length →
      r ≤ pre.length + f →
      arrGo ts r na nm f pre.length st =
        (match (memberStepF na nm k v st).2 with
         | some e => ((memberStepF na nm k v st).1, some e)
         | none => arrGo ts r na nm f (pre.length + 1 + (flatten v).length)
             (memberStepF na nm k v st).1) := by
  intro ts pre rest r f st hts hr hf
  have hL : ts.length = pre.length + 1 + (flatten v).length + rest.length := by
    rw [hts]; simp [List.length_append]; omega
  have hfp : 1 ≤ (flatten v).length := by
    cases v <;> simp [flatten]
  have hir : pre.length < r := by omega
  obtain ⟨f', rfl⟩ : ∃ f', f = f' + 1 := ⟨f - 1, by omega⟩
  by_cases hang : k = "angles"
  · subst hang
    have hfk : flatKey "angles" = true := by decide
    have hpv : isPrimArr v = true := by simpa [cleanMember, hfk] using hc
    cases v with
    | prim s => simp [isPrimArr] at hpv
    | str s => simp [isPrimArr] at hpv
    | obj ms2 => simp [isPrimArr] at hpv
    | arr es =>
      have hprim : es.all isPrimB = true := by simpa [isPrimArr] using hpv
      have hts' : ts = pre ++ (⟨TokType.STRING, "angles", 1⟩ ::
          ⟨TokType.ARRAY, "", es.length⟩ :: flattenList es) ++ rest := by
        rw [hts]; simp [flatten]
      have hb := arrBody_angles na nm es hprim ts pre rest st hts'
      have hflen : (flatten (JVal.arr es)).length = es.length + 1 := by
        simp [flatten, flattenList_length_prim es hprim]
      by_cases hsz : (es.length : Int) = na
      · rw [if_pos hsz] at hb
        rw [arrGo_succ_ok ts r na nm f' pre.length st _ _ hir hb]
        have hms : memberStepF na nm "angles" (JVal.arr es) st
            = ({ st with angles := writeFlat es 0 st.angles }, none) := by
          simp [memberStepF, hsz]
        rw [hms, hflen]
        exact arrGo_fuel ts r na nm f' (f' + 1) _ _ (by omega) (by omega)
      · rw [if_neg hsz] at hb
        rw [arrGo_succ_err ts r na nm f' pre.length st _ _ _ hir hb]
        have hms : memberStepF na nm "angles" (JVal.arr es) st
            = (st, some DecodeErr.ShapeMismatch) := by
          simp [memberStepF, hsz]
        rw [hms]
  · by_cases hcol : k = "marker_color"
    · subst hcol
      have hfk : flatKey "marker_color" = true := by decide
      have hpv : isPrimArr v = true := by simpa [cleanMember, hfk] using hc
      cases v with
      | prim s => simp [isPrimArr] at hpv
      | str s => simp [isPrimArr] at hpv
      | obj ms2 => simp [isPrimArr] at hpv
      | arr es =>
        have hprim : es.all isPrimB = true := by simpa [isPrimArr] using hpv
        have hts' : ts = pre ++ (⟨TokType.STRING, "marker_color", 1⟩ ::
            ⟨TokType.ARRAY, "", es.length⟩ :: flattenList es) ++ rest := by
          rw [hts]; simp [flatten]
        have hb := arrBody_color na nm es hprim ts pre rest st hts'
        have hflen : (flatten (JVal.arr es)).length = es.length + 1 := by
          simp [flatten, flattenList_length_prim es hprim]
        by_cases hsz : (es.length : Int) = nm
        · rw [if_pos hsz] at hb
          cases hmc : st.marker_color with
          | none =>
            rw [hmc] at hb
            rw [arrGo_succ_err ts r na nm f' pre.length st _ _ _ hir hb]
            have hms : memberStepF na nm "marker_color" (JVal.arr es) st
                = (st, some DecodeErr.SegFault) := by
              simp [memberStepF, hsz, hmc]
            rw [hms]
          | some arr =>
            rw [hmc] at hb
            rw [arrGo_succ_ok ts r na nm f' pre.length st _ _ hir hb]
            have hms : memberStepF na nm "marker_color" (JVal.arr es) st
                = ({ st with marker_color := some (writeFlat es 0 arr) }, none) := by
              simp [memberStepF, hsz, hmc]
            rw [hms, hflen]
            exact arrGo_fuel ts r na nm f' (f' + 1) _ _ (by omega) (by omega)
        · rw [if_neg hsz] at hb
          rw [arrGo_succ_err ts r na nm f' pre.length st _ _ _ hir hb]
          have hms : memberStepF na nm "marker_color" (JVal.arr es) st
              = (st, some DecodeErr.ShapeMismatch) := by
            simp [memberStepF, hsz]
          rw [hms]
    · by_cases hst : k = "marker_start"
      · subst hst
        have hlk : locKey "marker_start" = true := by decide
        have hfk : flatKey "marker_start" = false := by decide
        cases v with
        | prim s => exact absurd hc (by simp [cleanMember, hfk, hlk])
        | str s => exact absurd hc (by simp [cleanMember, hfk, hlk])
        | obj ms2 => exact absurd hc (by simp [cleanMember, hfk, hlk])
        | arr es =>
          have hpa : es.all isPrimArr = true := by
            simpa [cleanMember, hfk, hlk] using hc
          have hts' : ts = pre ++ (⟨TokType.STRING, "marker_start", 1⟩ ::
              ⟨TokType.ARRAY, "", es.length⟩ :: flattenList es) ++ rest := by
            rw [hts]; simp [flatten]
          have hflen : (flatten (JVal.arr es)).length
              = (flattenList es).length + 1 := by simp [flatten]
          by_cases hsz : (es.length : Int) = na
          · obtain ⟨dd, hb, hdd⟩ :=
              arrBody_start_sz na nm es hpa ts pre rest st hts' hsz
            have hms : memberStepF na nm "marker_start" (JVal.arr es) st
                = ({ st with marker_start := (locFold na nm es 0 st.marker_start).1 },
                   (locFold na nm es 0 st.marker_start).2) := by
              simp [memberStepF, hsz]
            rw [hms]
            cases herr : (locFold na nm es 0 st.marker_start).2 with
            | some e =>
              rw [herr] at hb
              rw [arrGo_succ_err ts r na nm f' pre.length st _ _ _ hir hb]
            | none =>
              rw [herr] at hb hdd
              rw [arrGo_succ_ok ts r na nm f' pre.length st _ _ hir hb]
              rw [hdd rfl, hflen]
              have harith : pre.length + 1 + (1 + (flattenList es).length)
                  = pre.length + 1 + ((flattenList es).length + 1) := by omega
              rw [harith]
              exact arrGo_fuel ts r na nm f' (f' + 1) _ _ (by omega) (by omega)
          · have hb := arrBody_loc_nsz na nm "marker_start" es ts pre rest st
              hlk hts' hsz
            rw [arrGo_succ_err ts r na nm f' pre.length st _ _ _ hir hb]
            have hms : memberStepF na nm "marker_start" (JVal.arr es) st
                = (st, some DecodeErr.ShapeMismatch) := by
              simp [memberStepF, hsz]
            rw [hms]
      · by_cases hmid : k = "marker_mid"
        · subst hmid
          have hlk : locKey "marker_mid" = true := by decide
          have hfk : flatKey "marker_mid" = false := by decide
          cases v with
          | prim s => exact absurd hc (by simp [cleanMember, hfk, hlk])
          | str s => exact absurd hc (by simp [cleanMember, hfk, hlk])
          | obj ms2 => exact absurd hc (by simp [cleanMember, hfk, hlk])
          | arr es =>
            have hpa : es.all isPrimArr = true := by
              simpa [cleanMember, hfk, hlk] using hc
            have hts' : ts = pre ++ (⟨TokType.STRING, "marker_mid", 1⟩ ::
                ⟨TokType.ARRAY, "", es.length⟩ :: flattenList es) ++ rest := by
              rw [hts]; simp [flatten]
            have hflen : (flatten (JVal.arr es)).length
                = (flattenList es).length + 1 := by simp [flatten]
            by_cases hsz : (es.length : Int) = na
            · obtain ⟨dd, hb, hdd⟩ :=
                arrBody_mid_sz na nm es hpa ts pre rest st hts' hsz
              have hms : memberStepF na nm "marker_mid" (JVal.arr es) st
                  = ({ st with marker_mid := (locFold na nm es 0 st.marker_mid).1 },
                     (locFold na nm es 0 st.marker_mid).2) := by
                simp [memberStepF, hsz]
              rw [hms]
              cases herr : (locFold na nm es 0 st.marker_mid).2 with
              | some e =>
                rw [herr] at hb
                rw [arrGo_succ_err ts r na nm f' pre.length st _ _ _ hir hb]
              | none =>
                rw [herr] at hb hdd
                rw [arrGo_succ_ok ts r na nm f' pre.length st _ _ hir hb]
                rw [hdd rfl, hflen]
                have harith : pre.length + 1 + (1 + (flattenList es).length)
                    = pre.length + 1 + ((flattenList es).length + 1) := by omega
                rw [harith]
                exact arrGo_fuel ts r na nm f' (f' + 1) _ _ (by omega) (by omega)
            · have hb := arrBody_loc_nsz na nm "marker_mid" es ts pre rest st
                hlk hts' hsz
              rw [arrGo_succ_err ts r na nm f' pre.length st _ _ _ hir hb]
              have hms : memberStepF na nm "marker_mid" (JVal.arr es) st
                  = (st, some DecodeErr.ShapeMismatch) := by
                simp [memberStepF, hsz]
              rw [hms]
        · by_cases hend : k = "marker_end"
          · subst hend
            have hlk : locKey "marker_end" = true := by decide
            have hfk : flatKey "marker_end" = false := by decide
            cases v with
            | prim s => exact absurd hc (by simp [cleanMember, hfk, hlk])
            | str s => exact absurd hc (by simp [cleanMember, hfk, hlk])
            | obj ms2 => exact absurd hc (by simp [cleanMember, hfk, hlk])
            | arr es =>
              have hpa : es.all isPrimArr = true := by
                simpa [cleanMember, hfk, hlk] using hc
              have hts' : ts = pre ++ (⟨TokType.STRING, "marker_end", 1⟩ ::
                  ⟨TokType.ARRAY, "", es.length⟩ :: flattenList es) ++ rest := by
                rw [hts]; simp [flatten]
              have hflen : (flatten (JVal.arr es)).length
                  = (flattenList es).length + 1 := by simp [flatten]
              by_cases hsz : (es.length : Int) = na
              · obtain ⟨dd, hb, hdd⟩ :=
                  arrBody_end_sz na nm es hpa ts pre rest st hts' hsz
                have hms : memberStepF na nm "marker_end" (JVal.arr es) st
                    = ({ st with marker_end := (locFold na nm es 0 st.marker_end).1 },
                       (locFold na nm es 0 st.marker_end).2) := by
                  simp [memberStepF, hsz]
                rw [hms]
                cases herr : (locFold na nm es 0 st.marker_end).2 with
                | some e =>
                  rw [herr] at hb
                  rw [arrGo_succ_err ts r na nm f' pre.length st _ _ _ hir hb]
                | none =>
                  rw [herr] at hb hdd
                  rw [arrGo_succ_ok ts r na nm f' pre.length st _ _ hir hb]
                  rw [hdd rfl, hflen]
                  have harith : pre.length + 1 + (1 + (flattenList es).length)
                      = pre.length + 1 + ((flattenList es).length + 1) := by omega
                  rw [harith]
                  exact arrGo_fuel ts r na nm f' (f' + 1) _ _ (by omega) (by omega)
              · have hb := arrBody_loc_nsz na nm "marker_end" es ts pre rest st
                  hlk hts' hsz
                rw [arrGo_succ_err ts r na nm f' pre.length st _ _ _ hir hb]
                have hms : memberStepF na nm "marker_end" (JVal.arr es) st
                    = (st, some DecodeErr.ShapeMismatch) := by
                  simp [memberStepF, hsz]
                rw [hms]
          · -- unknown or dimension key: the value is a primitive; both the
            -- key token and the value token fall to the unexpected-key branch
            have hfk : flatKey k = false := by
              simp [flatKey]
              exact ⟨hang, hcol⟩
            have hlk : locKey k = false := by
              simp [locKey]
              exact ⟨⟨hst, hmid⟩, hend⟩
            have hpv : isPrimB v = true := by
              simpa [cleanMember, hfk, hlk] using hc
            cases v with
            | str s => simp [isPrimB] at hpv
            | arr es2 => simp [isPrimB] at hpv
            | obj ms2 => simp [isPrimB] at hpv
            | prim s =>
              have htok : tget ts pre.length = ⟨TokType.STRING, k, 1⟩ :=
                tget_at ts pre (⟨TokType.PRIMITIVE, s, 0⟩ :: rest)
                  ⟨TokType.STRING, k, 1⟩ (by rw [hts]; simp [flatten])
              have htok1 : tget ts (pre.length + 1) = ⟨TokType.PRIMITIVE, s, 0⟩ :=
                tget_at1 ts pre rest ⟨TokType.STRING, k, 1⟩
                  ⟨TokType.PRIMITIVE, s, 0⟩ (by rw [hts]; simp [flatten])
              have hb1 : arrBody ts na nm pre.length st = (0, st, none) := by
                apply arrBody_nomatch
                rw [htok]
                exact keyMatchesNone_key k hfk hlk
              have hir1 : pre.length + 1 < r := by
                simp [flatten] at hL; omega
              obtain ⟨f'', rfl⟩ : ∃ f'', f' = f'' + 1 := ⟨f' - 1, by omega⟩
              rw [arrGo_succ_ok ts r na nm (f'' + 1) pre.length st _ _ hir hb1]
              have hb2 : arrBody ts na nm (pre.length + 1) st = (0, st, none) := by
                apply arrBody_nomatch
                rw [htok1]
                exact keyMatchesNone_nonstring _ (by simp)
              have hstep2 := arrGo_succ_ok ts r na nm f'' (pre.length + 1) st st 0
                hir1 hb2
              rw [show pre.length + 1 + 0 = pre.length + 1 from rfl] at hstep2
              rw [hstep2]
              have hms : memberStepF na nm k (JVal.prim s) st = (st, none) := by
                simp [memberStepF, hang, hcol, hst, hmid, hend]
              rw [hms]
              have hpos : pre.length + 1 + (flatten (JVal.prim s)).length
                  = pre.length + 1 + 1 := by simp [flatten]
              rw [hpos]
              exact arrGo_fuel ts r na nm f'' (f'' + 1 + 1) _ st
                (by omega) (by omega)

theorem arrGo_members (na nm : Int) :
    ∀ (ms : List (String × JVal)) (ts pre : List Tok) (r f : Nat) (st : St),
      ts = pre ++ flattenMembers ms →
      r = ts.length →
      r ≤ pre.length + f →
      cleanDoc ms = true →
      arrGo ts r na nm f pre.length st = memberFold na nm ms st := by
  intro ms
  induction ms with
  | nil =>
    intro ts pre r f st hts hr hf hc
    have hr' : r = pre.length := by rw [hr, hts]; simp [flattenMembers]
    rw [arrGo_stop ts r na nm f pre.length st (by omega)]
    rfl
  | cons m ms ih =>
    intro ts pre r f st hts hr hf hc
    obtain ⟨k, v⟩ := m
    have hc' : cleanMember (k, v) = true ∧ cleanDoc ms = true := by
      simpa [cleanDoc] using hc
    rw [arrGo_member na nm k v hc'.1 ts pre (flattenMembers ms) r f st
      (by rw [hts]; simp [flattenMembers]) hr hf]
    cases herr : (memberStepF na nm k v st).2 with
    | some e =>
      simp [memberFold, herr]
    | none =>
      simp only [herr]
      have hnext := ih ts (pre ++ (⟨TokType.STRING, k, 1⟩ :: flatten v)) r f
        (memberStepF na nm k v st).1 (by rw [hts]; simp [flattenMembers]) hr
        (by simp; omega) hc'.2
      have hlen1 : (pre ++ ((⟨TokType.STRING, k, 1⟩ : Tok) :: flatten v)).length
          = pre.length + 1 + (flatten v).length := by simp; omega
      rw [hlen1] at hnext
      rw [hnext]
      simp [memberFold, herr]

/-- On clean documents the token-level decoder coincides with its
member-level description `parseSpec`. -/
theorem parse_clean_eq (oracle : List Bool) (ms : List (String × JVal))
    (hc : cleanDoc ms = true) :
    parse_json oracle (flatten (JVal.obj ms)) = parseSpec oracle ms := by
  have hobj : tget (flatten (JVal.obj ms)) 0 = ⟨TokType.OBJECT, "", ms.length⟩ := by
    simp [flatten, tget]
  have hlen : 1 ≤ (flatten (JVal.obj ms)).length := by simp [flatten]
  have hdim : dimPass (flatten (JVal.obj ms)) = lastDims ms (0, 0) :=
    dimPass_clean ms hc
  have harr : ∀ (naI nmI : Int) (st : St),
      arrGo (flatten (JVal.obj ms)) (flatten (JVal.obj ms)).length naI nmI
        (flatten (JVal.obj ms)).length 1 st = memberFold naI nmI ms st := by
    intro naI nmI st
    have h := arrGo_members naI nmI ms (flatten (JVal.obj ms))
      [⟨TokType.OBJECT, "", ms.length⟩] (flatten (JVal.obj ms)).length
      (flatten (JVal.obj ms)).length st (by simp [flatten]) rfl (by simp) hc
    simpa using h
  simp only [parse_json, parseSpec]
  rw [if_neg (by push_neg; exact ⟨by omega, by rw [hobj]⟩)]
  rw [hdim]
  by_cases hz : (lastDims ms (0, 0)).1 = 0 ∨ (lastDims ms (0, 0)).2 = 0
  · rw [if_pos hz, if_pos hz]
  · rw [if_neg hz, if_neg hz]
    cases h0 : mallocArr oracle 0
        ((lastDims ms (0, 0)).1 * (lastDims ms (0, 0)).2 * 2) with
    | none => simp [h0]
    | some hs =>
      cases h1 : mallocArr oracle 1
          ((lastDims ms (0, 0)).1 * (lastDims ms (0, 0)).2 * 2) with
      | none => simp [h0, h1]
      | some hm =>
        cases h2 : mallocArr oracle 2
            ((lastDims ms (0, 0)).1 * (lastDims ms (0, 0)).2 * 2) with
        | none => simp [h0, h1, h2]
        | some he =>
          cases h3 : mallocArr oracle 3 (lastDims ms (0, 0)).1 with
          | none => simp [h0, h1, h2, h3]
          | some ha =>
            simp only [h0, h1, h2, h3]
            rw [harr]

/-
Member-level facts: shape violations yield ShapeMismatch, non-violating
clean members succeed, and unknown primitive members are no-ops.
-/

theorem locFold_ok (na nm : Int) :
    ∀ (es : List JVal) (j : Nat) (arr : HArr),
      es.all isPrimArr = true →
      (es.any (fun e => match e with
        | JVal.arr inner => (inner.length : Int) != nm * 2
        | _ => false)) = false →
      (locFold na nm es j arr).2 = none := by
  intro es
  induction es with
  | nil => intro j arr _ _; simp [locFold]
  | cons v es ih =>
    intro j arr hpa hany
    simp only [List.all_cons, Bool.and_eq_true] at hpa
    simp only [List.any_cons, Bool.or_eq_false_iff] at hany
    cases v with
    | prim s => simp [isPrimArr] at hpa
    | str s => simp [isPrimArr] at hpa
    | obj ms2 => simp [isPrimArr] at hpa
    | arr inner =>
      have hlen : (inner.length : Int) = nm * 2 := by
        have := hany.1
        simpa using this
      simp only [locFold, if_pos hlen]
      exact ih _ _ hpa.2 hany.2

theorem locFold_bad (na nm : Int) :
    ∀ (es : List JVal) (j : Nat) (arr : HArr),
      es.all isPrimArr = true →
      (es.any (fun e => match e with
        | JVal.arr inner => (inner.length : Int) != nm * 2
        | _ => false)) = true →
      (locFold na nm es j arr).2 = some DecodeErr.ShapeMismatch := by
  intro es
  induction es with
  | nil => intro j arr _ h; simp at h
  | cons v es ih =>
    intro j arr hpa hany
    simp only [List.all_cons, Bool.and_eq_true] at hpa
    cases v with
    | prim s => simp [isPrimArr] at hpa
    | str s => simp [isPrimArr] at hpa
    | obj ms2 => simp [isPrimArr] at hpa
    | arr inner =>
      by_cases hlen : (inner.length : Int) = nm * 2
      · have htail : (es.any (fun e => match e with
            | JVal.arr inner => (inner.length : Int) != nm * 2
            | _ => false)) = true := by
          simp only [List.any_cons] at hany
          simpa [hlen] using hany
        simp only [locFold, if_pos hlen]
        exact ih _ _ hpa.2 htail
      · simp [locFold, hlen]

theorem memberStepF_viol (na nm : Int) (k : String) (v : JVal) (st : St)
    (hc : cleanMember (k, v) = true) (hv : violates na nm (k, v) = true) :
    (memberStepF na nm k v st).2 = some DecodeErr.ShapeMismatch := by
  by_cases h1 : k = "angles"
  · subst h1
    cases v with
    | prim s => simp [violates] at hv
    | str s => simp [violates] at hv
    | obj ms2 => simp [violates] at hv
    | arr es =>
      have hne : ¬ (es.length : Int) = na := by simpa [violates] using hv
      simp [memberStepF, hne]
  · by_cases h2 : k = "marker_color"
    · subst h2
      cases v with
      | prim s => simp [violates] at hv
      | str s => simp [violates] at hv
      | obj ms2 => simp [violates] at hv
      | arr es =>
        have hne : ¬ (es.length : Int) = nm := by simpa [violates] using hv
        simp [memberStepF, hne]
    · by_cases hlk : locKey k = true
      · have hk3 : k = "marker_start" ∨ k = "marker_mid" ∨ k = "marker_end" := by
          simp [locKey] at hlk
          tauto
        have hfk : flatKey k = false := by
          simp [flatKey]
          exact ⟨h1, h2⟩
        cases v with
        | prim s => exact absurd hc (by
            rcases hk3 with rfl | rfl | rfl <;>
              simp [cleanMember, hfk, hlk])
        | str s => exact absurd hc (by
            rcases hk3 with rfl | rfl | rfl <;>
              simp [cleanMember, hfk, hlk])
        | obj ms2 => exact absurd hc (by
            rcases hk3 with rfl | rfl | rfl <;>
              simp [cleanMember, hfk, hlk])
        | arr es =>
          have hpa : es.all isPrimArr = true := by
            rcases hk3 with rfl | rfl | rfl <;>
              simpa [cleanMember, hfk, hlk] using hc
          have hd : (((es.length : Int) != na) ||
              es.any (fun e => match e with
                | JVal.arr inner => (inner.length : Int) != nm * 2
                | _ => false)) = true := by
            rcases hk3 with rfl | rfl | rfl <;>
              simpa [violates, hlk] using hv
          by_cases hsz : (es.length : Int) = na
          · have hbad : (es.any (fun e => match e with
                | JVal.arr inner => (inner.length : Int) != nm * 2
                | _ => false)) = true := by
              simpa [hsz] using hd
            rcases hk3 with rfl | rfl | rfl <;>
              simp [memberStepF, hsz] <;>
              [exact locFold_bad na nm es 0 st.marker_start hpa hbad;
               exact locFold_bad na nm es 0 st.marker_mid hpa hbad;
               exact locFold_bad na nm es 0 st.marker_end hpa hbad]
          · rcases hk3 with rfl | rfl | rfl <;> simp [memberStepF, hsz]
      · exfalso
        have hfk : flatKey k = false := by
          simp [flatKey]
          exact ⟨h1, h2⟩
        have hlf : locKey k = false := by simpa using hlk
        simp [violates, h1, h2, hlf,
          show (k == "angles") = false from by simpa using h1,
          show (k == "marker_color") = false from by simpa using h2] at hv

theorem memberStepF_ok (na nm : Int) (k : String) (v : JVal) (st : St)
    (hc : cleanMember (k, v) = true) (hv : violates na nm (k, v) = false)
    (hcol : st.marker_color.isSome = true) :
    (memberStepF na nm k v st).2 = none ∧
    (memberStepF na nm k v st).1.marker_color.isSome = true := by
  by_cases h1 : k = "angles"
  · subst h1
    have hfk : flatKey "angles" = true := by decide
    have hpv : isPrimArr v = true := by simpa [cleanMember, hfk] using hc
    cases v with
    | prim s => simp [isPrimArr] at hpv
    | str s => simp [isPrimArr] at hpv
    | obj ms2 => simp [isPrimArr] at hpv
    | arr es =>
      have hsz : (es.length : Int) = na := by simpa [violates] using hv
      simp [memberStepF, hsz, hcol]
  · by_cases h2 : k = "marker_color"
    · subst h2
      have hfk : flatKey "marker_color" = true := by decide
      have hpv : isPrimArr v = true := by simpa [cleanMember, hfk] using hc
      cases v with
      | prim s => simp [isPrimArr] at hpv
      | str s => simp [isPrimArr] at hpv
      | obj ms2 => simp [isPrimArr] at hpv
      | arr es =>
        have hsz : (es.length : Int) = nm := by simpa [violates] using hv
        obtain ⟨arr, harr⟩ := Option.isSome_iff_exists.mp hcol
        simp [memberStepF, hsz, harr]
    · by_cases hlk : locKey k = true
      · have hk3 : k = "marker_start" ∨ k = "marker_mid" ∨ k = "marker_end" := by
          simp [locKey] at hlk
          tauto
        have hfk : flatKey k = false := by
          simp [flatKey]
          exact ⟨h1, h2⟩
        cases v with
        | prim s => exact absurd hc (by
            rcases hk3 with rfl | rfl | rfl <;>
              simp [cleanMember, hfk, hlk])
        | str s => exact absurd hc (by
            rcases hk3 with rfl | rfl | rfl <;>
              simp [cleanMember, hfk, hlk])
        | obj ms2 => exact absurd hc (by
            rcases hk3 with rfl | rfl | rfl <;>
              simp [cleanMember, hfk, hlk])
        | arr es =>
          have hpa : es.all isPrimArr = true := by
            rcases hk3 with rfl | rfl | rfl <;>
              simpa [cleanMember, hfk, hlk] using hc
          have hd : (((es.length : Int) != na) ||
              es.any (fun e => match e with
                | JVal.arr inner => (inner.length : Int) != nm * 2
                | _ => false)) = false := by
            rcases hk3 with rfl | rfl | rfl <;>
              simpa [violates, hlk] using hv
          simp only [Bool.or_eq_false_iff] at hd
          have hsz : (es.length : Int) = na := by simpa using hd.1
          rcases hk3 with rfl | rfl | rfl <;>
            simp [memberStepF, hsz, hcol,
              locFold_ok na nm es 0 _ hpa hd.2]
      · have hms : memberStepF na nm k v st = (st, none) := by
          have hk3 : ¬ k = "marker_start" ∧ ¬ k = "marker_mid"
              ∧ ¬ k = "marker_end" := by
            simp [locKey] at hlk
            tauto
          simp [memberStepF, h1, h2, hk3.1, hk3.2.1, hk3.2.2]
        simp [hms, hcol]

theorem memberFold_viol (na nm : Int) :
    ∀ (ms : List (String × JVal)) (st : St),
      cleanDoc ms = true → st.marker_color.isSome = true →
      (∃ m ∈ ms, violates na nm m = true) →
      (memberFold na nm ms st).2 = some DecodeErr.ShapeMismatch := by
  intro ms
  induction ms with
  | nil =>
    intro st _ _ hex
    simp at hex
  | cons m ms ih =>
    intro st hc hcol hex
    obtain ⟨k, v⟩ := m
    have hc' : cleanMember (k, v) = true ∧ cleanDoc ms = true := by
      simpa [cleanDoc] using hc
    by_cases hviol : violates na nm (k, v) = true
    · have herr := memberStepF_viol na nm k v st hc'.1 hviol
      simp [memberFold, herr]
    · have hok := memberStepF_ok na nm k v st hc'.1 (by simpa using hviol) hcol
      have hex' : ∃ m ∈ ms, violates na nm m = true := by
        rcases hex with ⟨m, hm, hmv⟩
        rcases List.mem_cons.mp hm with rfl | hm'
        · exact absurd hmv hviol
        · exact ⟨m, hm', hmv⟩
      have := ih (memberStepF na nm k v st).1 hc'.2 hok.2 hex'
      simp [memberFold, hok.1, this]

theorem memberFold_none (na nm : Int) :
    ∀ (ms : List (String × JVal)) (st : St),
      cleanDoc ms = true → st.marker_color.isSome = true →
      (∀ m ∈ ms, violates na nm m = false) →
      (memberFold na nm ms st).2 = none := by
  intro ms
  induction ms with
  | nil => intro st _ _ _; simp [memberFold]
  | cons m ms ih =>
    intro st hc hcol hall
    obtain ⟨k, v⟩ := m
    have hc' : cleanMember (k, v) = true ∧ cleanDoc ms = true := by
      simpa [cleanDoc] using hc
    have hok := memberStepF_ok na nm k v st hc'.1 (hall (k, v) (by simp)) hcol
    have := ih (memberStepF na nm k v st).1 hc'.2 hok.2
      (fun m hm => hall m (List.mem_cons_of_mem _ hm))
    simp [memberFold, hok.1, this]

theorem lastDims_append (a b : List (String × JVal)) (d : Int × Int) :
    lastDims (a ++ b) d = lastDims b (lastDims a d) := by
  induction a generalizing d with
  | nil => simp [lastDims]
  | cons m a ih =>
    obtain ⟨k, v⟩ := m
    simp [lastDims, ih]

theorem memberFold_append (na nm : Int) (a b : List (String × JVal)) :
    ∀ st : St, memberFold na nm (a ++ b) st =
      (match (memberFold na nm a st).2 with
       | some e => memberFold na nm a st
       | none => memberFold na nm b (memberFold na nm a st).1) := by
  induction a with
  | nil => intro st; simp [memberFold]
  | cons m a ih =>
    intro st
    obtain ⟨k, v⟩ := m
    cases herr : (memberStepF na nm k v st).2 with
    | some e => simp [memberFold, herr]
    | none => simp [memberFold, herr, ih]

/-- C1: decoding Scenario A succeeds and yields angles = [0, 90],
markerColors = [1, 2, 3], and markerStart laid out column-major by angle:
markerStart[k * numAngles + j] holds the k-th integer of the j-th inner
array, so with numAngles = 2 the flat array reads
[0, 6, 1, 7, 2, 8, 3, 9, 4, 10, 5, 11]. -/
theorem parse_scenarioA :
    (parse_json [] (flatten docA)).ret = Except.ok () ∧
    (parse_json [] (flatten docA)).cs.num_ang = some 2 ∧
    (parse_json [] (flatten docA)).cs.num_mark = some 3 ∧
    (parse_json [] (flatten docA)).cs.angles = some (some [some 0, some 90]) ∧
    (parse_json [] (flatten docA)).cs.marker_color
      = some (some [some 1, some 2, some 3]) ∧
    (parse_json [] (flatten docA)).cs.marker_start
      = some (some [some 0, some 6, some 1, some 7, some 2, some 8,
                    some 3, some 9, some 4, some 10, some 5, some 11]) := by
  decide

/-- C2 counterexample: a document whose dimensions are both present and
equal to -1 is not rejected with InvalidDimensions — the code checks
`== 0`, not `≤ 0` — and the scalar out-parameter is even written with the
negative value before the angles allocation fails. -/
theorem dims_negative_not_invalid_dims :
    (parse_json [] (flatten docNeg)).ret = Except.error DecodeErr.AllocationError ∧
    ¬ (parse_json [] (flatten docNeg)).ret
        = Except.error DecodeErr.InvalidDimensions ∧
    (parse_json [] (flatten docNeg)).cs.num_ang = some (-1) := by
  decide

/-- C3 counterexample: in doc3 the inner location array [1,2,3] has length
3 ≠ num_markers * 2 = 2, yet decode succeeds: the preceding non-array
element was skipped without advancing past its descendants, so the scan
never examines the bad inner array as an element. -/
theorem inner_length_unchecked_after_skip :
    (parse_json [] (flatten doc3)).ret = Except.ok () ∧
    ¬ (parse_json [] (flatten doc3)).ret
        = Except.error DecodeErr.ShapeMismatch ∧
    (parse_json [] (flatten doc3)).cs.num_ang = some 2 ∧
    (parse_json [] (flatten doc3)).cs.num_mark = some 1 := by
  decide

/-- C4 counterexample: a shape-mismatch failure (angles of length 3 with
num_angles = 2) returns with every allocation of the call still live — the
byte buffer and all five arrays — releasing nothing. -/
theorem failure_leaks_allocations :
    (parse_json [] (flatten doc4)).ret = Except.error DecodeErr.ShapeMismatch ∧
    ¬ (parse_json [] (flatten doc4)).live = [] ∧
    (parse_json [] (flatten doc4)).live
      = [AllocId.buf, AllocId.a_marker_start, AllocId.a_marker_mid,
         AllocId.a_marker_end, AllocId.a_angles, AllocId.a_marker_color] := by
  decide

/-- C5 counterexample: when only the marker_color allocation (the fifth)
fails, the NULL check at lines 180-183 does not cover it, so decode reports
success while the caller's marker_color slot holds NULL. -/
theorem marker_color_alloc_failure_ignored :
    (parse_json [true, true, true, true, false] (flatten doc5)).ret
      = Except.ok () ∧
    (parse_json [true, true, true, true, false] (flatten doc5)).cs.marker_color
      = some none := by
  decide

/-- C6 counterexample: extending the valid document base6 with the unknown
key "extra" whose value is an object containing an "angles" member still
decodes successfully, but the resulting angles array is [9, 9] instead of
the [0, 90] obtained without the extra key: the unknown key's descendants
are scanned as if they were top-level keys. -/
theorem unknown_compound_key_changes_result :
    (parse_json [] (flatten (JVal.obj ext6))).ret = Except.ok () ∧
    (parse_json [] (flatten (JVal.obj ext6))).cs.angles
      = some (some [some 9, some 9]) ∧
    (parse_json [] (flatten (JVal.obj base6))).cs.angles
      = some (some [some 0, some 90]) ∧
    ¬ (parse_json [] (flatten (JVal.obj ext6))).cs.angles
        = (parse_json [] (flatten (JVal.obj base6))).cs.angles := by
  decide

/-- C7 counterexample: with num_angles given twice (2, then 7), the
dimension pass keeps scanning and the LAST occurrence wins: the caller
receives 7, not the first occurrence's 2. -/
theorem duplicate_dim_key_last_wins :
    (parse_json [] (flatten doc7)).cs.num_ang = some 7 ∧
    ¬ (parse_json [] (flatten doc7)).cs.num_ang = some 2 ∧
    (parse_json [] (flatten doc7)).ret = Except.ok () := by
  decide

/-- C8 counterexample: in ts8 the marker_start key sits at index 5 and its
value v8 spans 7 tokens, but after the array pass consumes it (without
error) the advance is only 3: the next examined token is the PRIMITIVE "5"
descendant of the skipped object element, not the next top-level key
"angles" at index 13. -/
theorem skip_nonarray_element_misaligns_scan :
    (arrBody ts8 2 1 5 st8).2.2 = none ∧
    (arrBody ts8 2 1 5 st8).1 = 3 ∧
    ¬ (arrBody ts8 2 1 5 st8).1 = (flatten v8).length ∧
    tget ts8 (5 + 1 + (arrBody ts8 2 1 5 st8).1)
      = ⟨TokType.PRIMITIVE, "5", 0⟩ ∧
    tget ts8 (5 + 1 + (flatten v8).length) = ⟨TokType.STRING, "angles", 1⟩ := by
  decide

theorem parse_json_notobj (oracle : List Bool) (ts : List Tok)
    (h : ts.length < 1 ∨ ¬ (tget ts 0).type = TokType.OBJECT) :
    parse_json oracle ts
      = ⟨Except.error DecodeErr.NotObject, initCS, [AllocId.buf]⟩ := by
  simp only [parse_json]
  rw [if_pos h]

theorem parse_json_dimfail (oracle : List Bool) (ts : List Tok)
    (h1 : ¬ (ts.length < 1 ∨ ¬ (tget ts 0).type = TokType.OBJECT))
    (h2 : (dimPass ts).1 = 0 ∨ (dimPass ts).2 = 0) :
    parse_json oracle ts
      = ⟨Except.error DecodeErr.InvalidDimensions, initCS, [AllocId.buf]⟩ := by
  simp only [parse_json]
  rw [if_neg h1, if_pos h2]

/-- C2 amended: for every document whose top level is an object, if
num_angles or num_markers is missing or parses to exactly zero (the code
checks `== 0`, not `≤ 0`), parse_json fails with InvalidDimensions, writes
no out-parameters, and allocates no output arrays (only the byte buffer is
live, and it is leaked). -/
theorem missing_or_zero_dims_invalid (oracle : List Bool) (ts : List Tok)
    (hobj : 1 ≤ ts.length ∧ (tget ts 0).type = TokType.OBJECT)
    (hz : (dimPass ts).1 = 0 ∨ (dimPass ts).2 = 0) :
    parse_json oracle ts
      = ⟨Except.error DecodeErr.InvalidDimensions, initCS, [AllocId.buf]⟩ :=
  parse_json_dimfail oracle ts (by push_neg; exact ⟨by omega, hobj.2⟩) hz

theorem missing_or_zero_dims_invalid_witness :
    (1 ≤ (flatten docM).length ∧ (tget (flatten docM) 0).type = TokType.OBJECT) ∧
    ((dimPass (flatten docM)).1 = 0 ∨ (dimPass (flatten docM)).2 = 0) ∧
    parse_json [] (flatten docM)
      = ⟨Except.error DecodeErr.InvalidDimensions, initCS, [AllocId.buf]⟩ :=
  ⟨by decide, by decide,
   missing_or_zero_dims_invalid [] (flatten docM) (by decide) (by decide)⟩

/-- C3 amended: for every clean document of the documented schema shape
(dimension and unknown keys with primitive values, angles and marker_color
arrays of primitives, location fields arrays of arrays of primitives), with
positive parsed dimensions, decoded with all allocations succeeding: if the
outer length of angles, marker_color, or a location field disagrees with
its dimension, or an inner location array's length differs from
numMarkers * 2, decode fails with ShapeMismatch.  (As frozen the claim is
false: a non-array location element misaligns the scan, so a later
wrong-length inner array can escape the check entirely — see the
counterexample.) -/
theorem clean_doc_shape_mismatch (ms : List (String × JVal)) (na nm : Int)
    (hc : cleanDoc ms = true)
    (hd : lastDims ms (0, 0) = (na, nm))
    (hna : 0 < na) (hnm : 0 < nm)
    (hex : ∃ m ∈ ms, violates na nm m = true) :
    (parse_json [] (flatten (JVal.obj ms))).ret
      = Except.error DecodeErr.ShapeMismatch := by
  rw [parse_clean_eq [] ms hc]
  have hmul : (0 : Int) < na * nm * 2 := by positivity
  have hm0 : mallocArr [] 0 (na * nm * 2)
      = some (List.replicate (na * nm * 2).toNat none) := by
    simp [mallocArr]; omega
  have hm1 : mallocArr [] 1 (na * nm * 2)
      = some (List.replicate (na * nm * 2).toNat none) := by
    simp [mallocArr]; omega
  have hm2 : mallocArr [] 2 (na * nm * 2)
      = some (List.replicate (na * nm * 2).toNat none) := by
    simp [mallocArr]; omega
  have hm3 : mallocArr [] 3 na = some (List.replicate na.toNat none) := by
    simp [mallocArr]; omega
  have hm4 : mallocArr [] 4 nm = some (List.replicate nm.toNat none) := by
    simp [mallocArr]; omega
  simp only [parseSpec, hd]
  rw [if_neg (by push_neg; exact ⟨by omega, by omega⟩)]
  simp only [hm0, hm1, hm2, hm3]
  have hcol : (some (mallocArr [] 4 nm)).isSome = true := by simp
  have hfold := memberFold_viol na nm ms
    ⟨List.replicate na.toNat none, mallocArr [] 4 nm,
     List.replicate (na * nm * 2).toNat none,
     List.replicate (na * nm * 2).toNat none,
     List.replicate (na * nm * 2).toNat none⟩
    hc (by simp [hm4]) hex
  simp only [hfold]

theorem clean_doc_shape_mismatch_witness :
    cleanDoc wms3 = true ∧ lastDims wms3 (0, 0) = (2, 1) ∧
    (parse_json [] (flatten (JVal.obj wms3))).ret
      = Except.error DecodeErr.ShapeMismatch :=
  ⟨by decide, by decide,
   clean_doc_shape_mismatch wms3 2 1 (by decide) (by decide)
     (by decide) (by decide) (by decide)⟩

/-- C4 amended: parse_json releases nothing on its failure paths.  On every
error return the byte buffer is still live (it is freed only on success),
and the live set is exactly the buffer plus every array whose allocation
succeeded during the call — `liveArrays` of the five malloc results, so
each allocated array, marker_color included, outlives the failing call —
except on the two failure paths taken before any array allocation is
attempted (NotObject, InvalidDimensions), where only the buffer is live. -/
theorem no_release_on_failure (oracle : List Bool) (ts : List Tok) :
    (∀ e : DecodeErr, (parse_json oracle ts).ret = Except.error e →
        AllocId.buf ∈ (parse_json oracle ts).live ∧
        ((parse_json oracle ts).live
            = AllocId.buf :: liveArrays
                (mallocArr oracle 0 ((dimPass ts).1 * (dimPass ts).2 * 2))
                (mallocArr oracle 1 ((dimPass ts).1 * (dimPass ts).2 * 2))
                (mallocArr oracle 2 ((dimPass ts).1 * (dimPass ts).2 * 2))
                (mallocArr oracle 3 (dimPass ts).1)
                (mallocArr oracle 4 (dimPass ts).2) ∨
          ((parse_json oracle ts).live = [AllocId.buf] ∧
           ((parse_json oracle ts).ret = Except.error DecodeErr.NotObject ∨
            (parse_json oracle ts).ret
              = Except.error DecodeErr.InvalidDimensions)))) ∧
    ((parse_json oracle ts).ret = Except.ok () →
        ¬ AllocId.buf ∈ (parse_json oracle ts).live) ∧
    ((parse_json oracle ts).ret = Except.error DecodeErr.ShapeMismatch →
        AllocId.a_marker_start ∈ (parse_json oracle ts).live ∧
        AllocId.a_marker_mid ∈ (parse_json oracle ts).live ∧
        AllocId.a_marker_end ∈ (parse_json oracle ts).live ∧
        AllocId.a_angles ∈ (parse_json oracle ts).live) := by
  simp only [parse_json]
  split_ifs with h1 h2
  · exact ⟨fun e he => ⟨by simp, Or.inr ⟨rfl, Or.inl rfl⟩⟩,
      fun h => by simp at h, fun h => by simp at h⟩
  · exact ⟨fun e he => ⟨by simp, Or.inr ⟨rfl, Or.inr rfl⟩⟩,
      fun h => by simp at h, fun h => by simp at h⟩
  · rcases h0 : mallocArr oracle 0 ((dimPass ts).1 * (dimPass ts).2 * 2)
        with _ | hs
    · exact ⟨fun e he => ⟨by simp [h0], Or.inl (by simp [h0])⟩,
        fun h => by simp [h0] at h, fun h => by simp [h0] at h⟩
    rcases hb1 : mallocArr oracle 1 ((dimPass ts).1 * (dimPass ts).2 * 2)
        with _ | hm
    · exact ⟨fun e he => ⟨by simp [h0, hb1], Or.inl (by simp [h0, hb1])⟩,
        fun h => by simp [h0, hb1] at h, fun h => by simp [h0, hb1] at h⟩
    rcases hb2 : mallocArr oracle 2 ((dimPass ts).1 * (dimPass ts).2 * 2)
        with _ | he
    · exact ⟨fun e he => ⟨by simp [h0, hb1, hb2], Or.inl (by simp [h0, hb1, hb2])⟩,
        fun h => by simp [h0, hb1, hb2] at h,
        fun h => by simp [h0, hb1, hb2] at h⟩
    rcases hb3 : mallocArr oracle 3 (dimPass ts).1 with _ | ha
    · exact ⟨fun e he =>
          ⟨by simp [h0, hb1, hb2, hb3], Or.inl (by simp [h0, hb1, hb2, hb3])⟩,
        fun h => by simp [h0, hb1, hb2, hb3] at h,
        fun h => by simp [h0, hb1, hb2, hb3] at h⟩
    simp only [h0, hb1, hb2, hb3]
    cases herr : (arrGo ts ts.length (dimPass ts).1 (dimPass ts).2 ts.length 1
        ⟨ha, mallocArr oracle 4 (dimPass ts).2, hs, hm, he⟩).2 with
    | some e =>
      refine ⟨fun e' he' => ⟨by simp, Or.inl (by simp)⟩,
        fun h => by simp at h, fun h => ?_⟩
      simp [liveArrays]
    | none =>
      refine ⟨fun e' he' => by simp at he', fun h => ?_, fun h => by simp at h⟩
      simp [liveArrays]

theorem no_release_on_failure_witness :
    AllocId.buf ∈ (parse_json [] (flatten doc4)).live ∧
    AllocId.a_marker_start ∈ (parse_json [] (flatten doc4)).live ∧
    AllocId.a_angles ∈ (parse_json [] (flatten doc4)).live :=
  ⟨((no_release_on_failure [] (flatten doc4)).1 DecodeErr.ShapeMismatch
      (by decide)).1,
   ((no_release_on_failure [] (flatten doc4)).2.2 (by decide)).1,
   ((no_release_on_failure [] (flatten doc4)).2.2 (by decide)).2.2.2⟩

/-- C5 amended: output arrays are allocated only after both dimensions are
known and pass the zero check (on a dimension failure only the byte buffer
of the call is live), and if any of the four checked allocations —
marker_start, marker_mid, marker_end, angles — fails, decode reports
AllocationError.  (A marker_color allocation failure is not checked and
decode can still report success with a NULL marker_color, and the
out-pointers written before the check stay visible to the caller — see the
counterexample.) -/
theorem alloc_after_dims_and_checked :
    (∀ (oracle : List Bool) (ts : List Tok),
      ((dimPass ts).1 = 0 ∨ (dimPass ts).2 = 0) →
        (parse_json oracle ts).live = [AllocId.buf]) ∧
    (∀ (oracle : List Bool) (ts : List Tok),
      ¬ (ts.length < 1 ∨ ¬ (tget ts 0).type = TokType.OBJECT) →
      ¬ ((dimPass ts).1 = 0 ∨ (dimPass ts).2 = 0) →
      (mallocArr oracle 0 ((dimPass ts).1 * (dimPass ts).2 * 2) = none ∨
       mallocArr oracle 1 ((dimPass ts).1 * (dimPass ts).2 * 2) = none ∨
       mallocArr oracle 2 ((dimPass ts).1 * (dimPass ts).2 * 2) = none ∨
       mallocArr oracle 3 (dimPass ts).1 = none) →
      (parse_json oracle ts).ret = Except.error DecodeErr.AllocationError) := by
  constructor
  · intro oracle ts hz
    by_cases hobj : ts.length < 1 ∨ ¬ (tget ts 0).type = TokType.OBJECT
    · rw [parse_json_notobj oracle ts hobj]
    · rw [parse_json_dimfail oracle ts hobj hz]
  · intro oracle ts hobj hz hfail
    simp only [parse_json]
    rw [if_neg hobj, if_neg hz]
    rcases h0 : mallocArr oracle 0 ((dimPass ts).1 * (dimPass ts).2 * 2)
        with _ | hs
    · simp [h0]
    rcases hb1 : mallocArr oracle 1 ((dimPass ts).1 * (dimPass ts).2 * 2)
        with _ | hm
    · simp [h0, hb1]
    rcases hb2 : mallocArr oracle 2 ((dimPass ts).1 * (dimPass ts).2 * 2)
        with _ | he
    · simp [h0, hb1, hb2]
    rcases hb3 : mallocArr oracle 3 (dimPass ts).1 with _ | ha
    · simp [h0, hb1, hb2, hb3]
    exfalso
    rcases hfail with h | h | h | h
    · rw [h0] at h; exact Option.noConfusion h
    · rw [hb1] at h; exact Option.noConfusion h
    · rw [hb2] at h; exact Option.noConfusion h
    · rw [hb3] at h; exact Option.noConfusion h

theorem alloc_after_dims_and_checked_witness :
    (parse_json [] (flatten docZ)).live = [AllocId.buf] ∧
    (parse_json [false] (flatten docA)).ret
      = Except.error DecodeErr.AllocationError :=
  ⟨alloc_after_dims_and_checked.1 [] (flatten docZ) (by decide),
   alloc_after_dims_and_checked.2 [false] (flatten docA)
     (by decide) (by decide) (by decide)⟩

/-- C6 amended: extending a clean document with an unknown top-level key
whose value is a primitive (such as the Scenario E number 42) changes
nothing: parse_json returns the identical result, with the unknown key
merely logged.  (As frozen — for an arbitrary unknown value — the claim is
false: a compound unknown value is scanned as if its descendants were
top-level keys; see the counterexample.) -/
theorem unknown_prim_key_ignored (oracle : List Bool)
    (ms : List (String × JVal)) (k s : String)
    (hc : cleanDoc ms = true) (hk : knownKey k = false) :
    parse_json oracle (flatten (JVal.obj (ms ++ [(k, JVal.prim s)])))
      = parse_json oracle (flatten (JVal.obj ms)) := by
  have hparts := hk
  simp only [knownKey, Bool.or_eq_false_iff] at hparts
  obtain ⟨⟨⟨hf, hl⟩, ha⟩, hm⟩ := hparts
  have hka : ¬ k = "num_angles" := by simpa using ha
  have hkm : ¬ k = "num_markers" := by simpa using hm
  have hf' := hf
  have hl' := hl
  simp only [flatKey, Bool.or_eq_false_iff] at hf'
  simp only [locKey, Bool.or_eq_false_iff] at hl'
  have h1 : ¬ k = "angles" := by simpa using hf'.1
  have h2 : ¬ k = "marker_color" := by simpa using hf'.2
  have h3 : ¬ k = "marker_start" := by simpa using hl'.1.1
  have h4 : ¬ k = "marker_mid" := by simpa using hl'.1.2
  have h5 : ¬ k = "marker_end" := by simpa using hl'.2
  have hck : cleanMember (k, JVal.prim s) = true := by
    simp [cleanMember, hf, hl, isPrimB]
  have hc2 : cleanDoc (ms ++ [(k, JVal.prim s)]) = true := by
    simp only [cleanDoc, List.all_append] at *
    simp [hc, hck]
  rw [parse_clean_eq oracle _ hc2, parse_clean_eq oracle ms hc]
  have hdims : lastDims (ms ++ [(k, JVal.prim s)]) (0, 0)
      = lastDims ms (0, 0) := by
    rw [lastDims_append]
    simp [lastDims, dimStep, hka, hkm]
  have hfold : ∀ (naI nmI : Int) (st : St),
      memberFold naI nmI (ms ++ [(k, JVal.prim s)]) st
        = memberFold naI nmI ms st := by
    intro naI nmI st
    rw [memberFold_append]
    have hstep : ∀ st' : St,
        memberStepF naI nmI k (JVal.prim s) st' = (st', none) := by
      intro st'
      simp [memberStepF, h1, h2, h3, h4, h5]
    cases herr : (memberFold naI nmI ms st).2 with
    | some e => rfl
    | none =>
      simp only [memberFold, hstep]
      rw [← herr]
  simp only [parseSpec, hdims]
  by_cases hz : (lastDims ms (0, 0)).1 = 0 ∨ (lastDims ms (0, 0)).2 = 0
  · rw [if_pos hz, if_pos hz]
  · rw [if_neg hz, if_neg hz]
    rcases h0 : mallocArr oracle 0
        ((lastDims ms (0, 0)).1 * (lastDims ms (0, 0)).2 * 2) with _ | hs
    · simp [h0]
    rcases hb1 : mallocArr oracle 1
        ((lastDims ms (0, 0)).1 * (lastDims ms (0, 0)).2 * 2) with _ | hm2
    · simp [h0, hb1]
    rcases hb2 : mallocArr oracle 2
        ((lastDims ms (0, 0)).1 * (lastDims ms (0, 0)).2 * 2) with _ | he
    · simp [h0, hb1, hb2]
    rcases hb3 : mallocArr oracle 3 (lastDims ms (0, 0)).1 with _ | ha2
    · simp [h0, hb1, hb2, hb3]
    simp only [h0, hb1, hb2, hb3]
    rw [hfold]

theorem unknown_prim_key_ignored_witness :
    parse_json [] (flatten (JVal.obj (base6 ++ [("extra_field", JVal.prim "42")])))
      = parse_json [] (flatten (JVal.obj base6)) :=
  unknown_prim_key_ignored [] base6 "extra_field" "42" (by decide) (by decide)

/-- C7 amended: the dimension pass scans the token stream without stopping
early; the token following any STRING token equal to a dimension key is
parsed as a base-10 integer (non-numeric content yields 0), and when a
dimension key occurs more than once the value from its LAST occurrence is
the one used — `lastDims` folds the members left to right, each occurrence
overwriting the previous value. -/
theorem dim_pass_last_occurrence (ms : List (String × JVal))
    (hc : cleanDoc ms = true) :
    dimPass (flatten (JVal.obj ms)) = lastDims ms (0, 0) :=
  dimPass_clean ms hc

theorem dim_pass_last_occurrence_witness :
    dimPass (flatten (JVal.obj ms7)) = lastDims ms7 (0, 0) ∧
    lastDims ms7 (0, 0) = (7, 1) :=
  ⟨dim_pass_last_occurrence ms7 (by decide), by decide⟩

/-- C8 amended: for a clean array-valued member (angles, marker_color, or a
location field whose elements are arrays of primitives), when the array
pass consumes the value without error, the scan advance equals the full
token length of the value, so the token examined next is exactly the one
after the member — the next top-level key when one follows.  (As frozen —
for every tokenizer-accepted document including skipped non-array elements
— the claim is false: a skipped element's descendants are not advanced
over; see the counterexample.) -/
theorem clean_member_advances_past_value (na nm : Int) (k : String) (v : JVal)
    (ts pre rest : List Tok) (st : St)
    (hts : ts = pre ++ (⟨TokType.STRING, k, 1⟩ :: flatten v) ++ rest)
    (hc : cleanMember (k, v) = true)
    (hm : flatKey k = true ∨ locKey k = true)
    (hok : (arrBody ts na nm pre.length st).2.2 = none) :
    (arrBody ts na nm pre.length st).1 = (flatten v).length := by
  by_cases hang : k = "angles"
  · subst hang
    have hfk : flatKey "angles" = true := by decide
    have hpv : isPrimArr v = true := by simpa [cleanMember, hfk] using hc
    cases v with
    | prim s => simp [isPrimArr] at hpv
    | str s => simp [isPrimArr] at hpv
    | obj ms2 => simp [isPrimArr] at hpv
    | arr es =>
      have hprim : es.all isPrimB = true := by simpa [isPrimArr] using hpv
      have hts' : ts = pre ++ (⟨TokType.STRING, "angles", 1⟩ ::
          ⟨TokType.ARRAY, "", es.length⟩ :: flattenList es) ++ rest := by
        rw [hts]; simp [flatten]
      have hb := arrBody_angles na nm es hprim ts pre rest st hts'
      by_cases hsz : (es.length : Int) = na
      · rw [if_pos hsz] at hb
        rw [hb]
        simp [flatten, flattenList_length_prim es hprim]
      · rw [if_neg hsz] at hb
        rw [hb] at hok
        simp at hok
  · by_cases hcol : k = "marker_color"
    · subst hcol
      have hfk : flatKey "marker_color" = true := by decide
      have hpv : isPrimArr v = true := by simpa [cleanMember, hfk] using hc
      cases v with
      | prim s => simp [isPrimArr] at hpv
      | str s => simp [isPrimArr] at hpv
      | obj ms2 => simp [isPrimArr] at hpv
      | arr es =>
        have hprim : es.all isPrimB = true := by simpa [isPrimArr] using hpv
        have hts' : ts = pre ++ (⟨TokType.STRING, "marker_color", 1⟩ ::
            ⟨TokType.ARRAY, "", es.length⟩ :: flattenList es) ++ rest := by
          rw [hts]; simp [flatten]
        have hb := arrBody_color na nm es hprim ts pre rest st hts'
        by_cases hsz : (es.length : Int) = nm
        · rw [if_pos hsz] at hb
          cases hmc : st.marker_color with
          | none =>
            rw [hmc] at hb
            rw [hb] at hok
            simp at hok
          | some arr =>
            rw [hmc] at hb
            rw [hb]
            simp [flatten, flattenList_length_prim es hprim]
        · rw [if_neg hsz] at hb
          rw [hb] at hok
          simp at hok
    · have hlk : locKey k = true := by
        rcases hm with hm | hm
        · exfalso
          simp [flatKey] at hm
          tauto
        · exact hm
      have hfk : flatKey k = false := by
        simp [flatKey]
        exact ⟨hang, hcol⟩
      have hk3 : k = "marker_start" ∨ k = "marker_mid" ∨ k = "marker_end" := by
        simp [locKey] at hlk
        tauto
      cases v with
      | prim s => exact absurd hc (by
          rcases hk3 with rfl | rfl | rfl <;> simp [cleanMember, hfk, hlk])
      | str s => exact absurd hc (by
          rcases hk3 with rfl | rfl | rfl <;> simp [cleanMember, hfk, hlk])
      | obj ms2 => exact absurd hc (by
          rcases hk3 with rfl | rfl | rfl <;> simp [cleanMember, hfk, hlk])
      | arr es =>
        have hpa : es.all isPrimArr = true := by
          rcases hk3 with rfl | rfl | rfl <;>
            simpa [cleanMember, hfk, hlk] using hc
        have hflen : (flatten (JVal.arr es)).length
            = (flattenList es).length + 1 := by simp [flatten]
        rcases hk3 with rfl | rfl | rfl
        · have hts' : ts = pre ++ (⟨TokType.STRING, "marker_start", 1⟩ ::
              ⟨TokType.ARRAY, "", es.length⟩ :: flattenList es) ++ rest := by
            rw [hts]; simp [flatten]
          by_cases hsz : (es.length : Int) = na
          · obtain ⟨dd, hb, hdd⟩ :=
              arrBody_start_sz na nm es hpa ts pre rest st hts' hsz
            rw [hb] at hok ⊢
            rw [hdd hok, hflen]
            omega
          · have hb := arrBody_loc_nsz na nm "marker_start" es ts pre rest st
              (by decide) hts' hsz
            rw [hb] at hok
            simp at hok
        · have hts' : ts = pre ++ (⟨TokType.STRING, "marker_mid", 1⟩ ::
              ⟨TokType.ARRAY, "", es.length⟩ :: flattenList es) ++ rest := by
            rw [hts]; simp [flatten]
          by_cases hsz : (es.length : Int) = na
          · obtain ⟨dd, hb, hdd⟩ :=
              arrBody_mid_sz na nm es hpa ts pre rest st hts' hsz
            rw [hb] at hok ⊢
            rw [hdd hok, hflen]
            omega
          · have hb := arrBody_loc_nsz na nm "marker_mid" es ts pre rest st
              (by decide) hts' hsz
            rw [hb] at hok
            simp at hok
        · have hts' : ts = pre ++ (⟨TokType.STRING, "marker_end", 1⟩ ::
              ⟨TokType.ARRAY, "", es.length⟩ :: flattenList es) ++ rest := by
            rw [hts]; simp [flatten]
          by_cases hsz : (es.length : Int) = na
          · obtain ⟨dd, hb, hdd⟩ :=
              arrBody_end_sz na nm es hpa ts pre rest st hts' hsz
            rw [hb] at hok ⊢
            rw [hdd hok, hflen]
            omega
          · have hb := arrBody_loc_nsz na nm "marker_end" es ts pre rest st
              (by decide) hts' hsz
            rw [hb] at hok
            simp at hok

theorem clean_member_advances_past_value_witness :
    (arrBody w8ts 1 1 1 w8st).2.2 = none ∧
    (arrBody w8ts 1 1 1 w8st).1 = (flatten w8v).length :=
  ⟨by decide,
   clean_member_advances_past_value 1 1 "marker_start" w8v w8ts
     [⟨TokType.OBJECT, "", 1⟩] [] w8st (by decide) (by decide)
     (Or.inr (by decide)) (by decide)⟩

/-- C10: for every document that fails the dimension check (a parsed
dimension equal to 0), parse_json returns before writing any of its output
parameters — the caller's slots are exactly as passed — and the scalar
out-parameters are only ever written after both dimensions validate. -/
theorem dim_failure_writes_nothing :
    (∀ (oracle : List Bool) (ts : List Tok),
      ((dimPass ts).1 = 0 ∨ (dimPass ts).2 = 0) →
        (parse_json oracle ts).cs = initCS) ∧
    (∀ (oracle : List Bool) (ts : List Tok) (n : Int),
      (parse_json oracle ts).cs.num_ang = some n →
        ¬ (dimPass ts).1 = 0 ∧ ¬ (dimPass ts).2 = 0) := by
  constructor
  · intro oracle ts hz
    by_cases hobj : ts.length < 1 ∨ ¬ (tget ts 0).type = TokType.OBJECT
    · rw [parse_json_notobj oracle ts hobj]
    · rw [parse_json_dimfail oracle ts hobj hz]
  · intro oracle ts n hw
    by_cases hobj : ts.length < 1 ∨ ¬ (tget ts 0).type = TokType.OBJECT
    · rw [parse_json_notobj oracle ts hobj] at hw
      simp [initCS] at hw
    · by_cases hz : (dimPass ts).1 = 0 ∨ (dimPass ts).2 = 0
      · rw [parse_json_dimfail oracle ts hobj hz] at hw
        simp [initCS] at hw
      · push_neg at hz
        exact hz

theorem dim_failure_writes_nothing_witness :
    (parse_json [] (flatten docZ)).cs = initCS ∧
    (¬ (dimPass (flatten docA)).1 = 0 ∧ ¬ (dimPass (flatten docA)).2 = 0) :=
  ⟨dim_failure_writes_nothing.1 [] (flatten docZ) (by decide),
   dim_failure_writes_nothing.2 [] (flatten docA) 2 (by decide)⟩

/-- C9: slurp with the sentinel requested on a successfully read 1-byte
file allocates exactly length + 1 bytes, but the sentinel write
`buf[fsz] = 0` indexes the `char **` parameter instead of the loaded
buffer: the buffer's final byte stays uninitialized and the NUL lands in
the caller's pointer-slot area at offset fsz. -/
theorem slurp_sentinel_not_written :
    (slurp [65] true).ret = 1 ∧
    (slurp [65] true).allocLen = 2 ∧
    (slurp [65] true).contents = [some 65, none] ∧
    ¬ (slurp [65] true).contents.getD 1 none = some 0 ∧
    (slurp [65] true).callerSlotStray = some 1 := by
  decide

end ParseJson
